import Mathlib

/-!
# go-relax2: a shallow embedding of `relax2.go`

The router of `relax2.go` is embedded as pure functions.

* Go `string` values are sequences of characters (`Str`).
* Go maps are association lists (`mapGet`, `mapSet`); the order in which a
  `range` loop visits a map is a parameter of the dispatcher (`scan`), and the
  theorems quantify over every permutation of the registry's entries.
* A Go run-time panic (nil dereference, index out of range) is an explicit
  outcome.
* The standard library `regexp` is not part of the repository.  The router is
  embedded over an arbitrary regular-expression library (`RegexpLib`); the
  library `goRegexp` further down models Go's `regexp` on a fragment of its
  syntax and is used where a statement depends on what expressions mean.
* A handler is an opaque value of a type `H`; calling it is the outcome
  `Outcome.invoked`.
-/

set_option autoImplicit false

namespace Relax2

/-- Go strings, as sequences of characters. -/
abbrev Str := List Char

/-! ## `strings.Replace` -/

/-- Worker of `stringsReplace` for a non-empty `old`: scans the text from the
left; `skip` counts the characters of an occurrence of `old` that was just
replaced and that are still to be passed over (occurrences do not overlap). -/
def replaceFrom (old new : Str) : Nat → Str → Str
  | _, [] => []
  | skip + 1, _ :: cs => replaceFrom old new skip cs
  | 0, c :: cs =>
    if old.isPrefixOf (c :: cs) then new ++ replaceFrom old new (old.length - 1) cs
    else c :: replaceFrom old new 0 cs

/-- The call `strings.Replace(s, old, new, -1)`: every non-overlapping
occurrence of `old` in `s`, leftmost first, is replaced by `new`.  For an empty
`old` Go inserts `new` before every character and at the end. -/
def stringsReplace (s old new : Str) : Str :=
  match old with
  | [] => new ++ s.flatMap (fun c => c :: new)
  | _ :: _ => replaceFrom old new 0 s

/-! ## The regular-expression library, as a parameter -/

/-- The part of Go's `regexp` package that `relax2.go` calls.
`Compile` returns `none` where Go returns `(nil, err)`.
`FindStringSubmatch` returns `[]` where Go returns `nil`. -/
structure RegexpLib where
  /-- The compiled expressions (`regexp.Regexp`). -/
  Regexp : Type
  /-- The function `regexp.Compile`. -/
  Compile : Str → Option Regexp
  /-- The method `MatchString`. -/
  MatchString : Regexp → Str → Bool
  /-- The method `SubexpNames`. -/
  SubexpNames : Regexp → List Str
  /-- The method `FindStringSubmatch`. -/
  FindStringSubmatch : Regexp → Str → List Str

/-! ## Template compilation -/

/-- The table `lookFor`. -/
def lookFor : List Str :=
  ["\x7b".toList, "\x7d".toList, ":number".toList, ":string".toList]

/-- The table `replaceWith`. -/
def replaceWith : List Str :=
  ["(?P<".toList, ">".toList, "[0-9\\.]+)".toList, "[0-9a-zA-Z_]+)".toList]

/-- The loop of `compileactualURL`: the substitutions of `lookFor` by
`replaceWith`, applied in table order. -/
def substitute (actualURL : Str) : Str :=
  (lookFor.zip replaceWith).foldl (fun s p => stringsReplace s p.1 p.2) actualURL

/-- The second result of `compileactualURL`: the substituted template between
`^` and `$` (the canonical form, used as registry key). -/
def canonical (actualURL : Str) : Str :=
  "^".toList ++ substitute actualURL ++ "$".toList

/-- The function `compileactualURL`.  The error of `regexp.Compile` is
discarded by the source (`r, _ := ...`), so the first component is `none`
(a nil pointer) when compilation fails. -/
def compileactualURL (L : RegexpLib) (actualURL : Str) : Option L.Regexp × Str :=
  let actualURL := canonical actualURL
  let r := L.Compile actualURL
  (r, actualURL)

/-! ## Go maps -/

/-- Lookup `m[k]` with the presence flag. -/
def mapGet {V : Type} : List (Str × V) → Str → Option V
  | [], _ => none
  | (k, v) :: rest, key => if k = key then some v else mapGet rest key

/-- Assignment `m[k] = v`: overwrites the entry under `k` if there is one,
adds an entry otherwise. -/
def mapSet {V : Type} : List (Str × V) → Str → V → List (Str × V)
  | [], key, val => [(key, val)]
  | (k, v) :: rest, key, val =>
    if k = key then (k, val) :: rest else (k, v) :: mapSet rest key val

/-! ## Routes and the registry -/

/-- The struct `RelaxHandler`: `path` is a pointer and may be nil. -/
structure RelaxHandler (L : RegexpLib) (H : Type) where
  method : Str
  path : Option L.Regexp
  funcHandler : H

/-- The struct `Relax`: the map from canonical form to route. -/
structure Relax (L : RegexpLib) (H : Type) where
  relaxHandlerMap : List (Str × RelaxHandler L H)

/-- The function `NewRelax`: a registry with an empty map. -/
def NewRelax (L : RegexpLib) (H : Type) : Relax L H :=
  { relaxHandlerMap := [] }

/-- The method `RegisterHandler`; the registry after the call is returned
together with the result. -/
def RegisterHandler {L : RegexpLib} {H : Type} (r : Relax L H) (method path : Str)
    (funcHandler : H) : Bool × Relax L H :=
  let (regexpPath, actualPath) := compileactualURL L path
  let conflict :=
    match mapGet r.relaxHandlerMap actualPath with
    | some value => decide (value.method = method)
    | none => false
  if conflict then (false, r)
  else (true, { relaxHandlerMap := mapSet r.relaxHandlerMap actualPath
                  { method := method, path := regexpPath, funcHandler := funcHandler } })

/-- Whether the registry holds, under the canonical form of `t`, a route of
method `m`. -/
def Conflicts {L : RegexpLib} {H : Type} (r : Relax L H) (m t : Str) : Prop :=
  ∃ v, mapGet r.relaxHandlerMap (canonical t) = some v ∧ v.method = m

/-! ## `fmt.Fprintf` without operands

`Send` passes the body as the format string of `fmt.Fprintf`, with no further
operand.  `doPrintf` follows the function of that name in Go's `fmt`, for an
empty operand list: text up to a `%` is copied; a `%` starts a verb, made of
flags, an optional `[n]` operand index, a width, a precision, and the verb
character.  A `.` starts a precision only when a character follows it; a `.`
at the end of the format is the verb. -/

/-- Flags `#0+- ` after the `%` are passed over. -/
def skipFlags : Str → Str
  | [] => []
  | c :: t =>
    if c = '#' ∨ c = '0' ∨ c = '+' ∨ c = '-' ∨ c = ' ' then skipFlags t else c :: t

/-- The function `parsenum` of `fmt`, on the text up to its end: the number
read so far, whether a digit was seen, and the rest.  A number above a
million stops the scan at the end of the text, as no number. -/
def parsenum : Nat → Bool → Str → Nat × Bool × Str
  | num, isnum, [] => (num, isnum, [])
  | num, isnum, c :: t =>
    if '0' ≤ c ∧ c ≤ '9' then
      if num > 1000000 then (0, false, [])
      else parsenum (num * 10 + (c.toNat - '0'.toNat)) true t
    else (num, isnum, c :: t)

/-- The function `parseArgNumber` of `fmt` on a text that starts with `[`:
the text after the index and whether `[n]` was well formed.  Without a
closing bracket only the `[` is consumed. -/
def parseArgNumber (format : Str) : Str × Bool :=
  if format.length < 3 then (format.drop 1, false)
  else
    let body := (format.drop 1).takeWhile (fun c => c != ']')
    let after := (format.drop 1).dropWhile (fun c => c != ']')
    match after with
    | [] => (format.drop 1, false)
    | _ :: rest =>
      let (_, ok, left) := parsenum 0 false body
      if !ok || !left.isEmpty then (rest, false) else (rest, true)

/-- The method `argNumber` of `fmt` with no operands: the rest of the text,
whether an index was found (`afterIndex`), and whether the operand number is
still good.  With no operands every index is out of range. -/
def argNumber (format : Str) (good : Bool) : Str × Bool × Bool :=
  match format with
  | '[' :: _ =>
    let (rest, ok) := parseArgNumber format
    (rest, ok, false)
  | _ => (format, false, good)

/-- One verb of `doPrintf`, after the `%`: the text written and the rest of
the format (`none` when the format ended before the verb character). -/
def doVerb (t : Str) : Str × Option Str :=
  let t := skipFlags t
  let (t, afterIndex, good) := argNumber t true
  -- width
  let (out1, t, afterIndex, good) :=
    match t with
    | '*' :: t => ("%!(BADWIDTH)".toList, t, false, good)
    | _ =>
      let (_, widPresent, t2) := parsenum 0 false t
      (([] : Str), t2, afterIndex, if afterIndex && widPresent then false else good)
  -- precision
  let (out2, t, afterIndex, good) :=
    match t with
    | '.' :: c :: t1 =>
      let good := if afterIndex then false else good
      let (t, afterIndex, good) := argNumber (c :: t1) good
      match t with
      | '*' :: t => ("%!(BADPREC)".toList, t, false, good)
      | _ =>
        let (_, _, t2) := parsenum 0 false t
        (([] : Str), t2, afterIndex, good)
    | _ => (([] : Str), t, afterIndex, good)
  let (t, good) :=
    if afterIndex then (t, good)
    else
      let (t, _, good) := argNumber t good
      (t, good)
  match t with
  | [] => (out1 ++ out2 ++ "%!(NOVERB)".toList, none)
  | verb :: rest =>
    if verb = '%' then (out1 ++ out2 ++ ['%'], some rest)
    else if !good then (out1 ++ out2 ++ "%!".toList ++ [verb] ++ "(BADINDEX)".toList, some rest)
    else (out1 ++ out2 ++ "%!".toList ++ [verb] ++ "(MISSING)".toList, some rest)

/-- The loop of `doPrintf` with no operands; `fuel` bounds the number of
steps, each of which consumes a character. -/
def doPrintfLoop : Nat → Str → Str
  | 0, _ => []
  | _ + 1, [] => []
  | fuel + 1, c :: t =>
    if c = '%' then
      match doVerb t with
      | (out, none) => out
      | (out, some rest) => out ++ doPrintfLoop fuel rest
    else c :: doPrintfLoop fuel t

/-- The text `fmt.Fprintf(w, format)` writes. -/
def doPrintf (format : Str) : Str :=
  doPrintfLoop format.length format

/-! ## Requests and responses -/

/-- A call received by the `http.ResponseWriter`. -/
inductive WriterCall where
  | WriteHeader (code : Int)
  | Write (data : Str)
  deriving DecidableEq, Repr

/-- The struct `RelaxResponse`; the response writer is the log of the calls it
received. -/
structure RelaxResponse where
  responseWriter : List WriterCall
  deriving DecidableEq, Repr

/-- The call `fmt.Fprintf(w, format)`: one `Write` of the formatted text. -/
def Fprintf (w : List WriterCall) (format : Str) : List WriterCall :=
  w ++ [WriterCall.Write (doPrintf format)]

/-- The method `RelaxResponse.Send`. -/
def Send (rr : RelaxResponse) (body : Str) (code : Int) : RelaxResponse :=
  { responseWriter := Fprintf (rr.responseWriter ++ [WriterCall.WriteHeader code]) body }

/-- The inbound `http.Request`, as far as the router reads it. -/
structure HttpRequest where
  Method : Str
  Path : Str
  RawQuery : Str
  deriving DecidableEq, Repr

/-- Go run-time panics. -/
inductive Panic where
  | nilDereference
  | indexOutOfRange
  deriving DecidableEq, Repr

/-- The struct `RelaxRequest`.  The field `params` is a pointer to a map:
`none` is the nil pointer, as in the zero value of the struct.  The field
`query` is `Request.URL.Query()`, a function of `Request`; its parsing by
`net/url` is not embedded. -/
structure RelaxRequest where
  params : Option (List (Str × Str))
  Request : HttpRequest
  deriving DecidableEq, Repr

/-- The method `RelaxRequest.Param`: it dereferences `rr.params`, which
panics on a nil pointer, and looks `name` up in the map, with the empty
string for an absent name. -/
def Param (rr : RelaxRequest) (name : Str) : Except Panic Str :=
  match rr.params with
  | none => Except.error Panic.nilDereference
  | some params =>
    match mapGet params name with
    | some param => Except.ok param
    | none => Except.ok []

/-- The loop of `applyPath` over `keys`, from position `index`. -/
def applyPathLoop (values : List Str) : Nat → List Str → List (Str × Str) →
    Except Panic (List (Str × Str))
  | _, [], result => Except.ok result
  | index, value :: keys, result =>
    if index ≠ 0 then
      match values.get? index with
      | none => Except.error Panic.indexOutOfRange
      | some v => applyPathLoop values (index + 1) keys (mapSet result value v)
    else applyPathLoop values (index + 1) keys result

/-- The function `applyPath`; the result is the map whose address the source
returns. -/
def applyPath (L : RegexpLib) (target : Str) (source : Option L.Regexp) :
    Except Panic (List (Str × Str)) :=
  match source with
  | none => Except.error Panic.nilDereference
  | some re =>
    if L.MatchString re target then
      applyPathLoop (L.FindStringSubmatch re target) 0 (L.SubexpNames re) []
    else Except.ok []

/-! ## The dispatcher -/

/-- What one run of `mainHandler` does. -/
inductive Outcome (H : Type) where
  /-- The handler was called with this request and response. -/
  | invoked (h : H) (req : RelaxRequest) (res : RelaxResponse)
  /-- No handler was called; the dispatcher wrote a response. -/
  | sent (res : RelaxResponse)
  /-- The run ended in a panic. -/
  | panicked (p : Panic)
  deriving DecidableEq, Repr

/-- Status `http.StatusOK`. -/
def StatusOK : Int := 200
/-- Status `http.StatusNotFound`. -/
def StatusNotFound : Int := 404
/-- Status `http.StatusMethodNotAllowed`. -/
def StatusMethodNotAllowed : Int := 405

/-- The `for ... range r.relaxHandlerMap` loop of `mainHandler`, over the
entries in the order `range` visits them.  The state is
`(statusCode, relaxHandler)`. -/
def scanLoop {L : RegexpLib} {H : Type} (path method : Str) :
    List (Str × RelaxHandler L H) → Int × Option (RelaxHandler L H) →
    Except Panic (Int × Option (RelaxHandler L H))
  | [], st => Except.ok st
  | (_, value) :: rest, st =>
    match value.path with
    | none => Except.error Panic.nilDereference
    | some re =>
      if L.MatchString re path then
        if value.method = method then Except.ok (StatusOK, some value)
        else Except.ok (StatusMethodNotAllowed, st.2)
      else scanLoop path method rest st

/-- The method `mainHandler`.  `scan` is the sequence of entries of
`r.relaxHandlerMap` in the order the `range` loop visits them, `w` the response
writer. -/
def mainHandler {L : RegexpLib} {H : Type} (scan : List (Str × RelaxHandler L H))
    (w : List WriterCall) (req : HttpRequest) : Outcome H :=
  let relaxResponse : RelaxResponse := { responseWriter := w }
  match scanLoop req.Path req.Method scan (StatusNotFound, none) with
  | Except.error p => Outcome.panicked p
  | Except.ok (statusCode, relaxHandler) =>
    let failure : Outcome H :=
      let errorMessage : Str :=
        if statusCode = StatusNotFound then "Not Found".toList
        else if statusCode = StatusMethodNotAllowed then "Method Not Allowed".toList
        else []
      Outcome.sent (Send relaxResponse errorMessage statusCode)
    match relaxHandler with
    | some value =>
      if statusCode = StatusOK then
        match applyPath L req.Path value.path with
        | Except.error p => Outcome.panicked p
        | Except.ok params =>
          Outcome.invoked value.funcHandler { params := some params, Request := req } relaxResponse
      else failure
    | none => failure

/-! ## A model of Go's `regexp`

`goRegexp` models `regexp.Compile`, `MatchString`, `SubexpNames` and
`FindStringSubmatch` on the following fragment of Go's syntax (flags
`syntax.Perl`): literal characters, `.`, `^`, `$`, `|`, the groups `(...)`,
`(?P<name>...)` and `(?:...)`, the repetitions `*`, `+`, `?` and their lazy
forms, character classes `[...]` of characters and ranges, and a backslash
before an ASCII character that is not a letter or digit.

Outside the fragment (a backslash before a letter or digit, `(?` followed by
anything but `P<` or `:`, `[:` inside a class, `{`) the parser answers
`ParseError.unsupported`; no statement below relies on that answer.  The
canonical forms of `compileactualURL` never contain a brace.  Resource limits
of the library (expression size, nesting depth) are not modelled.

The parser follows `regexp/syntax.Parse`: the expression is read from the
left, item by item, with a stack of open groups; the errors are those Go reports.  Matching
is the leftmost-first (backtracking order) semantics that Go documents.

A repetition does not take an iteration that consumes no character.  Whether
an expression matches is not affected; the submatches of a group under `*`
or `+` whose body can match the empty text may differ from those Go reports
(which may record one empty iteration), and no statement below is about such
an expression. -/

/-- The error codes of `regexp/syntax`, and `unsupported` for expressions
outside the modelled fragment. -/
inductive ParseError where
  | invalidCharRange
  | invalidEscape
  | invalidNamedCapture
  | invalidRepeatOp
  | missingBracket
  | missingParen
  | missingRepeatArgument
  | trailingBackslash
  | unexpectedParen
  | unsupported
  deriving DecidableEq, Repr

/-- Parsed expressions. -/
inductive Regex where
  | empty
  | noMatch
  | lit (c : Char)
  | anyNotNL
  | cls (neg : Bool) (ranges : List (Char × Char))
  | beginText
  | endText
  | cat (a b : Regex)
  | alt (a b : Regex)
  | star (greedy : Bool) (a : Regex)
  | plus (greedy : Bool) (a : Regex)
  | quest (greedy : Bool) (a : Regex)
  | capture (index : Nat) (name : Str) (a : Regex)
  deriving DecidableEq, Repr

/-- The repetition operators. -/
inductive RepOp where
  | star
  | plus
  | quest
  deriving DecidableEq, Repr

/-- The lexical items of an expression. -/
inductive Token where
  | lit (c : Char)
  | dot
  | caret
  | dollar
  | vbar
  | lparen
  | lparenNamed (name : Str)
  | lparenNC
  | rparen
  | rep (op : RepOp) (greedy : Bool)
  | cls (neg : Bool) (ranges : List (Char × Char))
  | bad (e : ParseError)
  deriving DecidableEq, Repr

/-- Letters and digits (`isalnum` of `regexp/syntax`). -/
def isalnum (c : Char) : Bool :=
  ('0' ≤ c && c ≤ '9') || ('A' ≤ c && c ≤ 'Z') || ('a' ≤ c && c ≤ 'z')

/-- The function `isValidCaptureName`: a non-empty name of letters, digits
and `_`. -/
def isValidCaptureName (name : Str) : Bool :=
  !name.isEmpty && name.all (fun c => c == '_' || isalnum c)

/-- The characters with a meaning of their own at the top level of an
expression. -/
def metaChars : List Char :=
  ['\\', '.', '+', '*', '?', '(', ')', '|', '[', '{', '^', '$']

/-- Characters that the parser reads as themselves. -/
def isLiteralChar (c : Char) : Bool :=
  !metaChars.contains c

/-- The function `parseEscape`, on the text after the backslash. -/
def parseEscape : Str → Except ParseError (Char × Str)
  | [] => Except.error ParseError.trailingBackslash
  | c :: t =>
    if c.toNat < 128 then
      if isalnum c then Except.error ParseError.unsupported else Except.ok (c, t)
    else Except.error ParseError.invalidEscape

/-- The function `parseClassChar`. -/
def parseClassChar : Str → Except ParseError (Char × Str)
  | [] => Except.error ParseError.missingBracket
  | c :: t => if c = '\\' then parseEscape t else Except.ok (c, t)

/-- The loop of `parseClass`, after the `[` and an optional `^`: the ranges of
the class and the text after the closing `]`.  `first` tells that no item was
read yet, in which case a `]` stands for itself. -/
def parseClassLoop : Nat → Bool → Str → List (Char × Char) →
    Except ParseError (List (Char × Char) × Str)
  | 0, _, _, _ => Except.error ParseError.unsupported
  | fuel + 1, first, t, acc =>
    match t, first with
    | ']' :: rest, false => Except.ok (acc, rest)
    | _, _ =>
      match t with
      | '[' :: ':' :: _ :: _ => Except.error ParseError.unsupported
      | _ =>
        match parseClassChar t with
        | Except.error e => Except.error e
        | Except.ok (lo, t1) =>
          match t1 with
          | '-' :: c :: t2 =>
            if c = ']' then parseClassLoop fuel false t1 (acc ++ [(lo, lo)])
            else
              match parseClassChar (c :: t2) with
              | Except.error e => Except.error e
              | Except.ok (hi, t3) =>
                if hi < lo then Except.error ParseError.invalidCharRange
                else parseClassLoop fuel false t3 (acc ++ [(lo, hi)])
          | _ => parseClassLoop fuel false t1 (acc ++ [(lo, lo)])

/-- The function `parseClass`, on the text after the `[`. -/
def parseClass (t : Str) : Except ParseError (Bool × List (Char × Char) × Str) :=
  match t with
  | '^' :: t1 =>
    match parseClassLoop (t1.length + 1) true t1 [] with
    | Except.error e => Except.error e
    | Except.ok (ranges, rest) => Except.ok (true, ranges, rest)
  | _ =>
    match parseClassLoop (t.length + 1) true t [] with
    | Except.error e => Except.error e
    | Except.ok (ranges, rest) => Except.ok (false, ranges, rest)

/-- The item that starts with `(`, on the text after it. -/
def scanParen (t : Str) : Token × Str :=
  match t with
  | '?' :: 'P' :: '<' :: c :: t1 =>
    let name := (c :: t1).takeWhile (fun x => x != '>')
    match (c :: t1).dropWhile (fun x => x != '>') with
    | [] => (Token.bad ParseError.invalidNamedCapture, [])
    | _ :: rest =>
      if isValidCaptureName name then (Token.lparenNamed name, rest)
      else (Token.bad ParseError.invalidNamedCapture, [])
  | '?' :: ':' :: t1 => (Token.lparenNC, t1)
  | '?' :: _ => (Token.bad ParseError.unsupported, [])
  | _ => (Token.lparen, t)

/-- The item that starts with a repetition operator, on the text after the
operator: a following `?` makes the repetition lazy. -/
def scanRepeat (op : RepOp) (t : Str) : Token × Str :=
  match t with
  | '?' :: t1 => (Token.rep op false, t1)
  | _ => (Token.rep op true, t)

/-- The first item of a non-empty expression `c :: t` and the text after it. -/
def scanItem (c : Char) (t : Str) : Token × Str :=
  if isLiteralChar c then (Token.lit c, t)
  else if c = '(' then scanParen t
  else if c = ')' then (Token.rparen, t)
  else if c = '|' then (Token.vbar, t)
  else if c = '^' then (Token.caret, t)
  else if c = '$' then (Token.dollar, t)
  else if c = '.' then (Token.dot, t)
  else if c = '*' then scanRepeat RepOp.star t
  else if c = '+' then scanRepeat RepOp.plus t
  else if c = '?' then scanRepeat RepOp.quest t
  else if c = '[' then
    match parseClass t with
    | Except.error e => (Token.bad e, [])
    | Except.ok (neg, ranges, rest) => (Token.cls neg ranges, rest)
  else if c = '\\' then
    match parseEscape t with
    | Except.error e => (Token.bad e, [])
    | Except.ok (c1, rest) => (Token.lit c1, rest)
  else (Token.bad ParseError.unsupported, [])

/-- The items of an expression, from the left; the list ends at the first
`Token.bad`.  `skip` counts the characters of the last item that are still to
be passed over. -/
def scanTokens : Nat → Str → List Token
  | _, [] => []
  | skip + 1, _ :: t => scanTokens skip t
  | 0, c :: t =>
    match scanItem c t with
    | (Token.bad e, _) => [Token.bad e]
    | (tok, rest) => tok :: scanTokens (t.length - rest.length) t

/-- The function `collapse` for a concatenation. -/
def mkCat : List Regex → Regex
  | [] => Regex.empty
  | [r] => r
  | r :: rs => Regex.cat r (mkCat rs)

/-- The function `collapse` for an alternation. -/
def mkAlt : List Regex → Regex
  | [] => Regex.noMatch
  | [r] => r
  | r :: rs => Regex.alt r (mkAlt rs)

/-- An open group of the parser: the capture index of its parenthesis (0 for
`(?:` and for the top level), its name, the alternatives closed by a `|` and
the items of the concatenation in progress, both latest first. -/
structure Frame where
  cap : Nat
  name : Str
  alts : List Regex
  items : List Regex
  deriving DecidableEq, Repr

/-- The expression of a group when it is closed. -/
def Frame.body (f : Frame) : Regex :=
  mkAlt ((mkCat f.items.reverse :: f.alts).reverse)

/-- The state of the parser: the innermost open group, the groups around it,
the number of capture groups so far, their names (latest first), and whether
the last item was a repetition. -/
structure PState where
  cur : Frame
  outer : List Frame
  numCap : Nat
  names : List Str
  lastRepeat : Bool
  deriving DecidableEq, Repr

/-- The parser state before the first item. -/
def PState.init : PState :=
  { cur := { cap := 0, name := [], alts := [], items := [] }, outer := [], numCap := 0,
    names := [], lastRepeat := false }

/-- Pushes an item on the concatenation in progress. -/
def PState.push (st : PState) (r : Regex) : PState :=
  { st with cur := { st.cur with items := r :: st.cur.items }, lastRepeat := false }

/-- Opens a group. -/
def PState.openGroup (st : PState) (capturing : Bool) (name : Str) : PState :=
  if capturing then
    { cur := { cap := st.numCap + 1, name := name, alts := [], items := [] },
      outer := st.cur :: st.outer, numCap := st.numCap + 1, names := name :: st.names,
      lastRepeat := false }
  else
    { cur := { cap := 0, name := [], alts := [], items := [] },
      outer := st.cur :: st.outer, numCap := st.numCap, names := st.names,
      lastRepeat := false }

/-- The expression a repetition operator builds. -/
def RepOp.apply (op : RepOp) (greedy : Bool) (r : Regex) : Regex :=
  match op with
  | RepOp.star => Regex.star greedy r
  | RepOp.plus => Regex.plus greedy r
  | RepOp.quest => Regex.quest greedy r

/-- The parser, over the items of the expression: the parsed expression and
the names of its capture groups, in the order of their opening parentheses. -/
def parseTokens : List Token → PState → Except ParseError (Regex × List Str)
  | [], st =>
    match st.outer with
    | [] => Except.ok (st.cur.body, st.names.reverse)
    | _ :: _ => Except.error ParseError.missingParen
  | tok :: toks, st =>
    match tok with
    | Token.bad e => Except.error e
    | Token.lit c => parseTokens toks (st.push (Regex.lit c))
    | Token.dot => parseTokens toks (st.push Regex.anyNotNL)
    | Token.caret => parseTokens toks (st.push Regex.beginText)
    | Token.dollar => parseTokens toks (st.push Regex.endText)
    | Token.cls neg ranges => parseTokens toks (st.push (Regex.cls neg ranges))
    | Token.lparen => parseTokens toks (st.openGroup true [])
    | Token.lparenNamed name => parseTokens toks (st.openGroup true name)
    | Token.lparenNC => parseTokens toks (st.openGroup false [])
    | Token.vbar =>
      parseTokens toks
        { st with cur := { st.cur with alts := mkCat st.cur.items.reverse :: st.cur.alts,
                                       items := [] },
                  lastRepeat := false }
    | Token.rparen =>
      match st.outer with
      | [] => Except.error ParseError.unexpectedParen
      | f :: outer =>
        let r := if st.cur.cap = 0 then st.cur.body
                 else Regex.capture st.cur.cap st.cur.name st.cur.body
        parseTokens toks
          { st with cur := { f with items := r :: f.items }, outer := outer,
                    lastRepeat := false }
    | Token.rep op greedy =>
      if st.lastRepeat then Except.error ParseError.invalidRepeatOp
      else
        match st.cur.items with
        | [] => Except.error ParseError.missingRepeatArgument
        | r :: items =>
          parseTokens toks
            { st with cur := { st.cur with items := op.apply greedy r :: items },
                      lastRepeat := true }

/-- The function `syntax.Parse` with the flags `syntax.Perl`. -/
def goParse (s : Str) : Except ParseError (Regex × List Str) :=
  parseTokens (scanTokens 0 s) PState.init

/-- A position of the matcher in the text: the number of characters before
it, the text after it, and the capture groups closed so far as
`(index, start, end)`, latest first. -/
structure MState where
  pos : Nat
  rest : Str
  caps : List (Nat × Nat × Nat)
  deriving DecidableEq, Repr

/-- Matches one character that satisfies `p`. -/
def stepChar (p : Char → Bool) (s : MState) : List MState :=
  match s.rest with
  | [] => []
  | c :: t => if p c then [{ s with pos := s.pos + 1, rest := t }] else []

/-- Whether a class matches a character. -/
def classMatches (neg : Bool) (ranges : List (Char × Char)) (c : Char) : Bool :=
  (ranges.any (fun r => r.1 ≤ c && c ≤ r.2)) != neg

/-- Repetition of `step`, at most `fuel` times: the ways to match, preferred
first.  An iteration that consumes no character is not repeated. -/
def iterate (step : MState → List MState) (greedy : Bool) : Nat → MState → List MState
  | 0, s => [s]
  | fuel + 1, s =>
    let more := ((step s).filter (fun s2 => s2.rest.length < s.rest.length)).flatMap
      (iterate step greedy fuel)
    if greedy then more ++ [s] else s :: more

/-- The ways an expression matches at a position, preferred first, each given
by the position after the match. -/
def run : Regex → MState → List MState
  | Regex.empty, s => [s]
  | Regex.noMatch, _ => []
  | Regex.lit c, s => stepChar (fun x => x == c) s
  | Regex.anyNotNL, s => stepChar (fun x => x != '\n') s
  | Regex.cls neg ranges, s => stepChar (classMatches neg ranges) s
  | Regex.beginText, s => if s.pos = 0 then [s] else []
  | Regex.endText, s => if s.rest.isEmpty then [s] else []
  | Regex.cat a b, s => (run a s).flatMap (run b)
  | Regex.alt a b, s => run a s ++ run b s
  | Regex.star greedy a, s => iterate (run a) greedy s.rest.length s
  | Regex.plus greedy a, s =>
    (run a s).flatMap (fun s2 => iterate (run a) greedy s2.rest.length s2)
  | Regex.quest greedy a, s => if greedy then run a s ++ [s] else s :: run a s
  | Regex.capture index _ a, s =>
    (run a s).map (fun s2 => { s2 with caps := (index, s.pos, s2.pos) :: s2.caps })

/-- The leftmost match of `e` in the text that starts at position `pos` with
`rest` still to read: the start of the match and the matcher's position at
its end. -/
def search (e : Regex) : Nat → Str → Option (Nat × MState)
  | pos, [] =>
    match run e { pos := pos, rest := [], caps := [] } with
    | [] => none
    | st :: _ => some (pos, st)
  | pos, c :: t =>
    match run e { pos := pos, rest := c :: t, caps := [] } with
    | [] => search e (pos + 1) t
    | st :: _ => some (pos, st)

/-- The text between two positions. -/
def slice (s : Str) (i j : Nat) : Str :=
  (s.drop i).take (j - i)

/-- A compiled expression: the parsed expression and the names of its capture
groups. -/
structure GoRegexp where
  expr : Regex
  names : List Str
  deriving DecidableEq, Repr

/-- Models `regexp.Compile`. -/
def goCompile (s : Str) : Option GoRegexp :=
  match goParse s with
  | Except.ok (e, names) => some { expr := e, names := names }
  | Except.error _ => none

/-- Models `MatchString`. -/
def goMatchString (re : GoRegexp) (s : Str) : Bool :=
  (search re.expr 0 s).isSome

/-- Models `SubexpNames`: the empty name of the whole match, then the names
of the groups. -/
def goSubexpNames (re : GoRegexp) : List Str :=
  [] :: re.names

/-- The text of capture group `index` in a final matcher state, empty when the
group took no part in the match. -/
def captureText (s : Str) (caps : List (Nat × Nat × Nat)) (index : Nat) : Str :=
  match caps.find? (fun cp => cp.1 == index) with
  | some (_, i, j) => slice s i j
  | none => []

/-- Models `FindStringSubmatch`. -/
def goFindStringSubmatch (re : GoRegexp) (s : Str) : List Str :=
  match search re.expr 0 s with
  | none => []
  | some (start, st) =>
    slice s start st.pos ::
      (List.range re.names.length).map (fun i => captureText s st.caps (i + 1))

/-- The model of Go's `regexp` as a library for the router. -/
@[reducible]
def goRegexp : RegexpLib :=
  { Regexp := GoRegexp
    Compile := goCompile
    MatchString := goMatchString
    SubexpNames := goSubexpNames
    FindStringSubmatch := goFindStringSubmatch }

/-! ## Notions used in the statements -/

/-- Whether the matcher of a route matches the path; false for a route
without matcher. -/
def routeMatches {L : RegexpLib} {H : Type} (path : Str) (value : RelaxHandler L H) : Bool :=
  match value.path with
  | some re => L.MatchString re path
  | none => false

/-- The response the dispatcher writes for a path that no route matches. -/
def notFoundResponse (w : List WriterCall) : RelaxResponse :=
  { responseWriter := w ++ [WriterCall.WriteHeader 404, WriterCall.Write "Not Found".toList] }

/-- The response the dispatcher writes for a method that is not allowed. -/
def methodNotAllowedResponse (w : List WriterCall) : RelaxResponse :=
  { responseWriter :=
      w ++ [WriterCall.WriteHeader 405, WriterCall.Write "Method Not Allowed".toList] }

/-- Whether `tok` occurs in `s` as a substring. -/
def occursIn (tok : Str) : Str → Bool
  | [] => tok.isEmpty
  | c :: cs => tok.isPrefixOf (c :: cs) || occursIn tok cs

/-- The class `[0-9\\.]`. -/
def numberClass : Regex := Regex.cls false [('0', '9'), ('.', '.')]

/-- The expression of the canonical form of `pre{n}:number`. -/
def numberExpr (pre n : Str) : Regex :=
  mkCat (Regex.beginText :: (pre.map Regex.lit ++
    [Regex.capture 1 n (Regex.plus true numberClass), Regex.endText]))

/-- The parser state after a run of literal characters. -/
def pushLiterals (lits : Str) (st : PState) : PState :=
  { st with cur := { st.cur with items := (lits.map Regex.lit).reverse ++ st.cur.items },
            lastRepeat := false }

/-- A registry with two routes whose matchers both match the path `/a`:
`("GET", "/a")` and `("POST", "/{x}:string")`. -/
def overlappingRelax : Relax goRegexp Nat :=
  (RegisterHandler (RegisterHandler (NewRelax goRegexp Nat) "GET".toList "/a".toList 1).2
    "POST".toList "/{x}:string".toList 2).2

/-- The handlers that a run of `mainHandler` calls. -/
def handlersInvoked {H : Type} : Outcome H → List H
  | Outcome.invoked h _ _ => [h]
  | Outcome.sent _ => []
  | Outcome.panicked _ => []

/-- The contract of `FindStringSubmatch` that `applyPath` relies on: on a text
that the expression matches it reports a text for the whole match and one for
each capture group, so at least as many texts as `SubexpNames` has names. -/
def SubmatchLaw (L : RegexpLib) (re : L.Regexp) (s : Str) : Prop :=
  L.MatchString re s = true → (L.SubexpNames re).length ≤ (L.FindStringSubmatch re s).length

/-- The substitutions in the order the specification gives: the type-suffix
tokens `:number` and `:string` first, the brace tokens afterwards. -/
def substituteSuffixFirst (actualURL : Str) : Str :=
  stringsReplace (stringsReplace (stringsReplace (stringsReplace actualURL
    ":number".toList "[0-9\\.]+)".toList) ":string".toList "[0-9a-zA-Z_]+)".toList)
    "\x7b".toList "(?P<".toList) "\x7d".toList ">".toList

/-- The canonical form in the order the specification gives. -/
def canonicalSuffixFirst (actualURL : Str) : Str :=
  "^".toList ++ substituteSuffixFirst actualURL ++ "$".toList

/-- What the two brace substitutions make of a character. -/
def braceText (c : Char) : Str :=
  if c = '{' then "(?P<".toList else if c = '}' then ">".toList else [c]

/-- The matcher of the template `/a{x}:number?`, whose group is optional. -/
def optionalNumberRegexp : GoRegexp :=
  { expr := mkCat [Regex.beginText, Regex.lit '/', Regex.lit 'a',
      Regex.quest true (Regex.capture 1 "x".toList (Regex.plus true numberClass)),
      Regex.endText],
    names := ["x".toList] }

/-- The matcher of the template `/{x}a)?{x}b)`, two groups of which bear the
name `x`. -/
def duplicateNameRegexp : GoRegexp :=
  { expr := mkCat [Regex.beginText, Regex.lit '/',
      Regex.quest true (Regex.capture 1 "x".toList (Regex.lit 'a')),
      Regex.capture 2 "x".toList (Regex.lit 'b'), Regex.endText],
    names := ["x".toList, "x".toList] }

/-! # Theorems -/

/-! ## Registration: theorems -/

theorem mapGet_mapSet_same {V : Type} (m : List (Str × V)) (k : Str) (v : V) :
    mapGet (mapSet m k v) k = some v := by
  induction m with
  | nil => simp [mapSet, mapGet]
  | cons e rest ih =>
    obtain ⟨k1, v1⟩ := e
    by_cases hk : k1 = k
    · simp [mapSet, mapGet, hk]
    · simp [mapSet, mapGet, hk, ih]

theorem mapGet_mapSet_other {V : Type} (m : List (Str × V)) (k k2 : Str) (v : V)
    (hne : k2 ≠ k) : mapGet (mapSet m k v) k2 = mapGet m k2 := by
  induction m with
  | nil => simp [mapSet, mapGet, Ne.symm hne]
  | cons e rest ih =>
    obtain ⟨k1, v1⟩ := e
    by_cases hk : k1 = k
    · subst hk
      simp [mapSet, mapGet, Ne.symm hne]
    · by_cases hk2 : k1 = k2
      · subst hk2
        simp [mapSet, mapGet, hk]
      · simp [mapSet, mapGet, hk, hk2, ih]

theorem RegisterHandler_false_iff {L : RegexpLib} {H : Type} (r : Relax L H) (m t : Str) (h : H) :
    (RegisterHandler r m t h).1 = false ↔ Conflicts r m t := by
  unfold RegisterHandler Conflicts compileactualURL
  cases hg : mapGet r.relaxHandlerMap (canonical t) with
  | none => simp [hg]
  | some v =>
    by_cases hm : v.method = m <;> simp [hg, hm]

theorem RegisterHandler_of_conflict {L : RegexpLib} {H : Type} (r : Relax L H) (m t : Str) (h : H)
    (hc : Conflicts r m t) : RegisterHandler r m t h = (false, r) := by
  obtain ⟨v, hg, hm⟩ := hc
  simp [RegisterHandler, compileactualURL, hg, hm]

theorem RegisterHandler_of_no_conflict {L : RegexpLib} {H : Type} (r : Relax L H) (m t : Str)
    (h : H) (hc : ¬ Conflicts r m t) :
    RegisterHandler r m t h =
      (true, { relaxHandlerMap := mapSet r.relaxHandlerMap (canonical t)
                 { method := m, path := L.Compile (canonical t), funcHandler := h } }) := by
  unfold RegisterHandler compileactualURL
  cases hg : mapGet r.relaxHandlerMap (canonical t) with
  | none => simp [hg]
  | some v =>
    have hm : ¬ v.method = m := fun hm => hc ⟨v, hg, hm⟩
    simp [hg, hm]

/-- After a call of `RegisterHandler` for `(m, t)`, whatever it returned, the
registry holds a route of method `m` under the canonical form of `t`. -/
theorem Conflicts_after_register {L : RegexpLib} {H : Type} (r : Relax L H) (m t : Str) (h : H) :
    Conflicts (RegisterHandler r m t h).2 m t := by
  by_cases hc : Conflicts r m t
  · rw [RegisterHandler_of_conflict r m t h hc]
    exact hc
  · rw [RegisterHandler_of_no_conflict r m t h hc]
    exact ⟨_, mapGet_mapSet_same _ _ _, rfl⟩

/-- C1: `RegisterHandler(m, t, h)` returns false exactly when the registry
holds, under the canonical form of `t`, a route whose method is `m`, and then
the registry is unchanged; otherwise it returns true, the registry then maps
the canonical form to the route `(m, matcher of t, h)` and every other key is
as before.  A template `t2` with the same canonical form as `t` conflicts
with `t` under the same method. -/
theorem RegisterHandler_contract {L : RegexpLib} {H : Type} (r : Relax L H) (m t : Str) (h : H) :
    ((RegisterHandler r m t h).1 = false ↔
      ∃ v, mapGet r.relaxHandlerMap (canonical t) = some v ∧ v.method = m) ∧
    ((RegisterHandler r m t h).1 = false → (RegisterHandler r m t h).2 = r) ∧
    ((RegisterHandler r m t h).1 = true →
      mapGet (RegisterHandler r m t h).2.relaxHandlerMap (canonical t) =
          some { method := m, path := (compileactualURL L t).1, funcHandler := h } ∧
      ∀ k, k ≠ canonical t →
        mapGet (RegisterHandler r m t h).2.relaxHandlerMap k = mapGet r.relaxHandlerMap k) ∧
    (∀ (t2 : Str) (h2 : H), canonical t2 = canonical t →
      (RegisterHandler (RegisterHandler r m t h).2 m t2 h2).1 = false) := by
  refine ⟨RegisterHandler_false_iff r m t h, ?_, ?_, ?_⟩
  · intro hf
    rw [RegisterHandler_of_conflict r m t h ((RegisterHandler_false_iff r m t h).1 hf)]
  · intro ht
    have hc : ¬ Conflicts r m t := by
      intro hc
      rw [RegisterHandler_of_conflict r m t h hc] at ht
      exact Bool.noConfusion ht
    rw [RegisterHandler_of_no_conflict r m t h hc]
    exact ⟨mapGet_mapSet_same _ _ _, fun k hk => mapGet_mapSet_other _ _ _ _ hk⟩
  · intro t2 h2 heq
    rw [RegisterHandler_false_iff]
    have hc := Conflicts_after_register r m t h
    unfold Conflicts at hc ⊢
    rw [heq]
    exact hc

/-- C1, at a concrete input: the templates `/u/{id}` and `/u/(?P<id>`, which
differ, have the same canonical form `^/u/(?P<id>$`; on the empty registry the
first registration under `GET` returns true and the second, of the other
template, returns false. -/
theorem RegisterHandler_contract_witness :
    "/u/{id}".toList ≠ "/u/(?P<id>".toList ∧
    canonical "/u/(?P<id>".toList = canonical "/u/{id}".toList ∧
    (RegisterHandler (NewRelax goRegexp Nat) "GET".toList "/u/{id}".toList 1).1 = true ∧
    (RegisterHandler (RegisterHandler (NewRelax goRegexp Nat) "GET".toList "/u/{id}".toList 1).2
      "GET".toList "/u/(?P<id>".toList 2).1 = false :=
  ⟨by decide, by decide, by rfl,
    (RegisterHandler_contract (NewRelax goRegexp Nat) "GET".toList "/u/{id}".toList 1).2.2.2
      "/u/(?P<id>".toList 2 (by decide)⟩

/-- C2: on a fresh registry, registering `(m, t)` twice returns true and then
false, and afterwards the registry holds exactly one route, the one of the
first call. -/
theorem RegisterHandler_twice (L : RegexpLib) (H : Type) (m t : Str) (h1 h2 : H) :
    (RegisterHandler (NewRelax L H) m t h1).1 = true ∧
    (RegisterHandler (RegisterHandler (NewRelax L H) m t h1).2 m t h2).1 = false ∧
    (RegisterHandler (RegisterHandler (NewRelax L H) m t h1).2 m t h2).2.relaxHandlerMap =
      [(canonical t, { method := m, path := (compileactualURL L t).1, funcHandler := h1 })] := by
  have h0 : ¬ Conflicts (NewRelax L H) m t := by
    rintro ⟨v, hv, -⟩
    simp [NewRelax, mapGet] at hv
  have e1 := RegisterHandler_of_no_conflict (NewRelax L H) m t h1 h0
  have hc := Conflicts_after_register (NewRelax L H) m t h1
  have e2 := RegisterHandler_of_conflict _ m t h2 hc
  rw [e2]
  rw [e1]
  simp [NewRelax, mapSet, compileactualURL]

/-! ## The dispatcher: theorems -/

theorem doPrintfLoop_of_no_percent (s : Str) (h : ∀ c ∈ s, c ≠ '%') :
    ∀ fuel, s.length ≤ fuel → doPrintfLoop fuel s = s := by
  induction s with
  | nil => intro fuel _; cases fuel <;> rfl
  | cons c cs ih =>
    intro fuel hf
    cases fuel with
    | zero => simp at hf
    | succ n =>
      have hc : c ≠ '%' := h c (List.mem_cons_self _ _)
      have hcs : ∀ x ∈ cs, x ≠ '%' := fun x hx => h x (List.mem_cons_of_mem _ hx)
      have hn : cs.length ≤ n := by simpa using hf
      simp [doPrintfLoop, hc, ih hcs n hn]

/-- A body without `%` is written as it is. -/
theorem Send_of_no_percent (rr : RelaxResponse) (body : Str) (code : Int)
    (h : ∀ c ∈ body, c ≠ '%') :
    Send rr body code =
      { responseWriter := rr.responseWriter ++ [WriterCall.WriteHeader code, WriterCall.Write body] } := by
  simp [Send, Fprintf, doPrintf, doPrintfLoop_of_no_percent body h body.length (Nat.le_refl _)]

theorem Send_notFound (w : List WriterCall) :
    Send { responseWriter := w } "Not Found".toList StatusNotFound = notFoundResponse w := by
  rw [Send_of_no_percent _ _ _ (by decide)]
  rfl

theorem Send_methodNotAllowed (w : List WriterCall) :
    Send { responseWriter := w } "Method Not Allowed".toList StatusMethodNotAllowed =
      methodNotAllowedResponse w := by
  rw [Send_of_no_percent _ _ _ (by decide)]
  rfl

theorem notFound_ne_methodNotAllowed (w : List WriterCall) :
    notFoundResponse w ≠ methodNotAllowedResponse w := by
  intro h
  simp [notFoundResponse, methodNotAllowedResponse] at h

/-- The loop of the dispatcher stops at the first route, in scan order, whose
matcher matches the path. -/
theorem scanLoop_eq {L : RegexpLib} {H : Type} (path method : Str)
    (scan : List (Str × RelaxHandler L H)) (st : Int × Option (RelaxHandler L H))
    (hvalid : ∀ e ∈ scan, e.2.path.isSome = true) :
    scanLoop path method scan st =
      match scan.find? (fun e => routeMatches path e.2) with
      | none => Except.ok st
      | some e =>
        if e.2.method = method then Except.ok (StatusOK, some e.2)
        else Except.ok (StatusMethodNotAllowed, st.2) := by
  induction scan with
  | nil => rfl
  | cons e rest ih =>
    obtain ⟨k, v⟩ := e
    have hv : v.path.isSome = true := hvalid (k, v) (List.mem_cons_self _ _)
    have ih2 := ih (fun e he => hvalid e (List.mem_cons_of_mem _ he))
    cases hp : v.path with
    | none => simp [hp] at hv
    | some re =>
      by_cases hm : L.MatchString re path = true
      · simp [scanLoop, hp, hm, routeMatches, List.find?]
      · simp [scanLoop, hp, hm, routeMatches, List.find?, ih2]

/-- What `mainHandler` does, in terms of the first route in scan order whose
matcher matches the path. -/
theorem mainHandler_eq {L : RegexpLib} {H : Type} (scan : List (Str × RelaxHandler L H))
    (w : List WriterCall) (req : HttpRequest)
    (hvalid : ∀ e ∈ scan, e.2.path.isSome = true) :
    mainHandler scan w req =
      match scan.find? (fun e => routeMatches req.Path e.2) with
      | none => Outcome.sent (notFoundResponse w)
      | some e =>
        if e.2.method = req.Method then
          match applyPath L req.Path e.2.path with
          | Except.error p => Outcome.panicked p
          | Except.ok params =>
            Outcome.invoked e.2.funcHandler { params := some params, Request := req }
              { responseWriter := w }
        else Outcome.sent (methodNotAllowedResponse w) := by
  unfold mainHandler
  rw [scanLoop_eq req.Path req.Method scan _ hvalid]
  cases hf : scan.find? (fun e => routeMatches req.Path e.2) with
  | none =>
    simp only []
    rw [← Send_notFound]
    simp [StatusNotFound]
  | some e =>
    by_cases hm : e.2.method = req.Method
    · simp only [hm, if_true]
    · simp only [hm, if_false]
      rw [← Send_methodNotAllowed]
      simp [StatusNotFound, StatusMethodNotAllowed]

theorem find?_eq_none_of_perm {α : Type} (p : α → Bool) {l1 l2 : List α} (h : l1.Perm l2) :
    l1.find? p = none ↔ ∀ x ∈ l2, p x = false := by
  rw [List.find?_eq_none]
  constructor
  · intro hh x hx
    simpa using hh x (h.mem_iff.2 hx)
  · intro hh x hx
    simp [hh x (h.mem_iff.1 hx)]

/-- C5: in a registry whose routes all have a matcher, for every scan order,
the dispatcher writes 404 with body "Not Found" (and calls no handler) if and
only if no registered route's matcher matches the path; in particular it does
so when no route is registered. -/
theorem mainHandler_notFound_iff {L : RegexpLib} {H : Type} (r : Relax L H)
    (scan : List (Str × RelaxHandler L H)) (w : List WriterCall) (req : HttpRequest)
    (hvalid : ∀ e ∈ r.relaxHandlerMap, e.2.path.isSome = true)
    (hscan : scan.Perm r.relaxHandlerMap) :
    (mainHandler scan w req =
        Outcome.sent { responseWriter :=
          w ++ [WriterCall.WriteHeader 404, WriterCall.Write "Not Found".toList] } ↔
      ∀ e ∈ r.relaxHandlerMap, routeMatches req.Path e.2 = false) ∧
    (r.relaxHandlerMap = [] →
      mainHandler scan w req =
        Outcome.sent { responseWriter :=
          w ++ [WriterCall.WriteHeader 404, WriterCall.Write "Not Found".toList] }) := by
  have hvalid2 : ∀ e ∈ scan, e.2.path.isSome = true :=
    fun e he => hvalid e (hscan.mem_iff.1 he)
  have key : mainHandler scan w req = Outcome.sent (notFoundResponse w) ↔
      ∀ e ∈ r.relaxHandlerMap, routeMatches req.Path e.2 = false := by
    rw [mainHandler_eq scan w req hvalid2, ← find?_eq_none_of_perm _ hscan]
    cases hf : scan.find? (fun e => routeMatches req.Path e.2) with
    | none => simp
    | some e =>
      by_cases hm : e.2.method = req.Method
      · simp only [hm, if_true]
        cases applyPath L req.Path e.2.path <;> simp
      · simp only [hm, if_false]
        simp [Ne.symm (notFound_ne_methodNotAllowed w)]
  refine ⟨key, fun hempty => key.2 ?_⟩
  intro e he
  rw [hempty] at he
  cases he

/-- C6, amended: in a registry whose routes all have a matcher, for every scan
order, the dispatcher writes 405 with body "Method Not Allowed" if and only if
some route's matcher matches the path and the first such route in scan order
has a method other than the request's.  In particular it does so when some
route matches the path and no route that matches it has the request's
method. -/
theorem mainHandler_methodNotAllowed_iff {L : RegexpLib} {H : Type} (r : Relax L H)
    (scan : List (Str × RelaxHandler L H)) (w : List WriterCall) (req : HttpRequest)
    (hvalid : ∀ e ∈ r.relaxHandlerMap, e.2.path.isSome = true)
    (hscan : scan.Perm r.relaxHandlerMap) :
    (mainHandler scan w req =
        Outcome.sent { responseWriter :=
          w ++ [WriterCall.WriteHeader 405, WriterCall.Write "Method Not Allowed".toList] } ↔
      ∃ e, scan.find? (fun e => routeMatches req.Path e.2) = some e ∧
        e.2.method ≠ req.Method) ∧
    ((∃ e ∈ r.relaxHandlerMap, routeMatches req.Path e.2 = true) ∧
      (∀ e ∈ r.relaxHandlerMap, routeMatches req.Path e.2 = true → e.2.method ≠ req.Method) →
      mainHandler scan w req =
        Outcome.sent { responseWriter :=
          w ++ [WriterCall.WriteHeader 405, WriterCall.Write "Method Not Allowed".toList] }) := by
  have hvalid2 : ∀ e ∈ scan, e.2.path.isSome = true :=
    fun e he => hvalid e (hscan.mem_iff.1 he)
  have key : mainHandler scan w req = Outcome.sent (methodNotAllowedResponse w) ↔
      ∃ e, scan.find? (fun e => routeMatches req.Path e.2) = some e ∧
        e.2.method ≠ req.Method := by
    rw [mainHandler_eq scan w req hvalid2]
    cases hf : scan.find? (fun e => routeMatches req.Path e.2) with
    | none =>
      constructor
      · intro h
        exact absurd (Outcome.sent.inj h) (notFound_ne_methodNotAllowed w)
      · rintro ⟨e1, he1, -⟩
        cases he1
    | some e =>
      by_cases hm : e.2.method = req.Method
      · simp only [hm, if_true]
        constructor
        · intro h
          cases hap : applyPath L req.Path e.2.path <;> rw [hap] at h <;> cases h
        · rintro ⟨e1, he1, hne⟩
          cases he1
          exact absurd hm hne
      · simp only [hm, if_false]
        exact ⟨fun _ => ⟨e, rfl, hm⟩, fun _ => trivial⟩
  refine ⟨key, ?_⟩
  rintro ⟨⟨e, he, hpe⟩, hall⟩
  apply key.2
  cases hf : scan.find? (fun e => routeMatches req.Path e.2) with
  | none =>
    have := (find?_eq_none_of_perm _ hscan).1 hf e he
    rw [hpe] at this
    cases this
  | some e2 =>
    refine ⟨e2, rfl, ?_⟩
    have hmem : e2 ∈ r.relaxHandlerMap := hscan.mem_iff.1 (List.mem_of_find?_eq_some hf)
    have hp2 : routeMatches req.Path e2.2 = true := by
      simpa using List.find?_some hf
    exact hall e2 hmem hp2

/-! ## Substitution: lemmas -/

theorem replaceFrom_of_not_occurs (old new s : Str) (h : occursIn old s = false) :
    replaceFrom old new 0 s = s := by
  induction s with
  | nil => rfl
  | cons c cs ih =>
    simp only [occursIn, Bool.or_eq_false_iff] at h
    simp [replaceFrom, h.1, ih h.2]

theorem stringsReplace_of_not_occurs (s old new : Str) (h : occursIn old s = false) :
    stringsReplace s old new = s := by
  cases old with
  | nil => cases s <;> simp [occursIn] at h
  | cons a tl => exact replaceFrom_of_not_occurs _ _ _ h

theorem substitute_unfold (s : Str) :
    substitute s =
      stringsReplace (stringsReplace (stringsReplace (stringsReplace s
        "\x7b".toList "(?P<".toList) "\x7d".toList ">".toList)
        ":number".toList "[0-9\\.]+)".toList) ":string".toList "[0-9a-zA-Z_]+)".toList :=
  rfl

/-- A template in which none of the four tokens occurs is its own
substitution. -/
theorem substitute_of_no_token (t : Str) (h : ∀ tok ∈ lookFor, occursIn tok t = false) :
    substitute t = t := by
  have h1 := h "\x7b".toList (by simp [lookFor])
  have h2 := h "\x7d".toList (by simp [lookFor])
  have h3 := h ":number".toList (by simp [lookFor])
  have h4 := h ":string".toList (by simp [lookFor])
  rw [substitute_unfold, stringsReplace_of_not_occurs _ _ _ h1,
    stringsReplace_of_not_occurs _ _ _ h2, stringsReplace_of_not_occurs _ _ _ h3,
    stringsReplace_of_not_occurs _ _ _ h4]

theorem replaceFrom_single (c : Char) (new s : Str) :
    replaceFrom [c] new 0 s = s.flatMap (fun x => if x = c then new else [x]) := by
  induction s with
  | nil => rfl
  | cons x xs ih =>
    by_cases hx : x = c
    · subst hx
      simp [replaceFrom, List.isPrefixOf, ih]
    · have hx2 : ¬ c = x := fun h => hx h.symm
      simp [replaceFrom, List.isPrefixOf, ih, hx, hx2]

theorem flatMap_of_not_mem (c : Char) (new s : Str) (h : c ∉ s) :
    s.flatMap (fun x => if x = c then new else [x]) = s := by
  induction s with
  | nil => rfl
  | cons x xs ih =>
    have hx : ¬ x = c := fun e => h (by simp [e])
    have hxs : c ∉ xs := fun e => h (List.mem_cons_of_mem _ e)
    simp [List.flatMap_cons, hx, ih hxs]

theorem replaceFrom_append_of_not_mem (a : Char) (tl new s r : Str) (h : a ∉ s) :
    replaceFrom (a :: tl) new 0 (s ++ r) = s ++ replaceFrom (a :: tl) new 0 r := by
  induction s with
  | nil => rfl
  | cons x xs ih =>
    have hx : ¬ a = x := fun e => h (by simp [e])
    have hxs : a ∉ xs := fun e => h (List.mem_cons_of_mem _ e)
    simp [replaceFrom, List.isPrefixOf, hx, ih hxs]

/-- The canonical form of a template `pre{n}:number` whose `pre` and `n`
contain no brace and no colon. -/
theorem canonical_number (pre n : Str)
    (hpre : ∀ c ∈ pre, c ≠ '{' ∧ c ≠ '}' ∧ c ≠ ':')
    (hn : ∀ c ∈ n, c ≠ '{' ∧ c ≠ '}' ∧ c ≠ ':') :
    canonical (pre ++ "\x7b".toList ++ n ++ "\x7d:number".toList) =
      "^".toList ++ pre ++ "(?P<".toList ++ n ++ ">[0-9\\.]+)$".toList := by
  have p1 : '{' ∉ pre := fun h => (hpre _ h).1 rfl
  have p2 : '}' ∉ pre := fun h => (hpre _ h).2.1 rfl
  have p3 : ':' ∉ pre := fun h => (hpre _ h).2.2 rfl
  have n1 : '{' ∉ n := fun h => (hn _ h).1 rfl
  have n2 : '}' ∉ n := fun h => (hn _ h).2.1 rfl
  have n3 : ':' ∉ n := fun h => (hn _ h).2.2 rfl
  have e1 : stringsReplace (pre ++ "\x7b".toList ++ n ++ "\x7d:number".toList) "\x7b".toList "(?P<".toList
      = pre ++ "(?P<".toList ++ n ++ "\x7d:number".toList := by
    show replaceFrom ['{'] _ 0 _ = _
    rw [replaceFrom_single]
    simp only [List.flatMap_append, flatMap_of_not_mem _ _ _ p1, flatMap_of_not_mem _ _ _ n1]
    rfl
  have e2 : stringsReplace (pre ++ "(?P<".toList ++ n ++ "\x7d:number".toList) "\x7d".toList ">".toList
      = pre ++ "(?P<".toList ++ n ++ ">:number".toList := by
    show replaceFrom ['}'] _ 0 _ = _
    rw [replaceFrom_single]
    simp only [List.flatMap_append, flatMap_of_not_mem _ _ _ p2, flatMap_of_not_mem _ _ _ n2]
    rfl
  have e3 : stringsReplace (pre ++ "(?P<".toList ++ n ++ ">:number".toList) ":number".toList
      "[0-9\\.]+)".toList = pre ++ "(?P<".toList ++ n ++ ">[0-9\\.]+)".toList := by
    show replaceFrom (':' :: "number".toList) _ 0 _ = _
    have hmem : ':' ∉ pre ++ "(?P<".toList ++ n ++ ">".toList := by
      simp [p3, n3]
    have hsplit : pre ++ "(?P<".toList ++ n ++ ">:number".toList =
        (pre ++ "(?P<".toList ++ n ++ ">".toList) ++ ":number".toList := by simp
    rw [hsplit, replaceFrom_append_of_not_mem _ _ _ _ _ hmem]
    simp
    rfl
  have e4 : stringsReplace (pre ++ "(?P<".toList ++ n ++ ">[0-9\\.]+)".toList) ":string".toList
      "[0-9a-zA-Z_]+)".toList = pre ++ "(?P<".toList ++ n ++ ">[0-9\\.]+)".toList := by
    show replaceFrom (':' :: "string".toList) _ 0 _ = _
    have hmem : ':' ∉ pre ++ "(?P<".toList ++ n ++ ">[0-9\\.]+)".toList := by
      simp [p3, n3]
    have := replaceFrom_append_of_not_mem ':' "string".toList "[0-9a-zA-Z_]+)".toList _ [] hmem
    simpa [replaceFrom] using this
  unfold canonical
  rw [substitute_unfold, e1, e2, e3, e4]
  simp

/-! ## The parser of `goRegexp`: lemmas -/

theorem scanTokens_skip (xs rest : Str) :
    scanTokens xs.length (xs ++ rest) = scanTokens 0 rest := by
  induction xs with
  | nil => rfl
  | cons x xs ih => simpa [scanTokens] using ih

theorem scanItem_literal (c : Char) (t : Str) (h : isLiteralChar c = true) :
    scanItem c t = (Token.lit c, t) := by
  simp [scanItem, h]

theorem scanTokens_literals (lits rest : Str) (h : ∀ c ∈ lits, isLiteralChar c = true) :
    scanTokens 0 (lits ++ rest) = lits.map Token.lit ++ scanTokens 0 rest := by
  induction lits with
  | nil => rfl
  | cons c cs ih =>
    have hc := h c (List.mem_cons_self _ _)
    have hcs := ih (fun x hx => h x (List.mem_cons_of_mem _ hx))
    simp [scanTokens, scanItem_literal c _ hc, hcs]

theorem parseTokens_literals (lits : Str) (toks : List Token) (st : PState)
    (h : st.lastRepeat = false) :
    parseTokens (lits.map Token.lit ++ toks) st = parseTokens toks (pushLiterals lits st) := by
  induction lits generalizing st with
  | nil =>
    obtain ⟨cur, outer, numCap, names, lastRepeat⟩ := st
    simp at h
    subst h
    simp [pushLiterals]
  | cons c cs ih =>
    show parseTokens (List.map Token.lit cs ++ toks) (st.push (Regex.lit c)) = _
    rw [ih _ (by simp [PState.push])]
    simp [pushLiterals, PState.push]

theorem mkCat_cons_cons (a b : Regex) (rs : List Regex) :
    mkCat (a :: b :: rs) = Regex.cat a (mkCat (b :: rs)) := rfl

/-- The expression of a template of literal characters between the anchors. -/
theorem goParse_literals (t : Str) (h : ∀ c ∈ t, isLiteralChar c = true) :
    goParse ("^".toList ++ t ++ "$".toList) =
      Except.ok (mkCat (Regex.beginText :: (t.map Regex.lit ++ [Regex.endText])), []) := by
  have hs : scanTokens 0 ("^".toList ++ t ++ "$".toList) =
      Token.caret :: (t.map Token.lit ++ [Token.dollar]) := by
    show scanTokens 0 ('^' :: (t ++ ['$'])) = _
    have h1 : scanItem '^' (t ++ ['$']) = (Token.caret, t ++ ['$']) := by
      simp [scanItem, isLiteralChar, metaChars]
    have h2 : scanTokens 0 ['$'] = [Token.dollar] := by decide
    have step : scanTokens 0 ('^' :: (t ++ ['$'])) = Token.caret :: scanTokens 0 (t ++ ['$']) := by
      simp [scanTokens, h1]
    rw [step, scanTokens_literals t _ h, h2]
  unfold goParse
  rw [hs]
  simp only [parseTokens]
  rw [parseTokens_literals _ _ _ (by simp [PState.push])]
  simp [parseTokens, pushLiterals, PState.push, PState.init, Frame.body, mkAlt]

theorem isalnum_or_underscore_ne (c : Char) (h : (c == '_' || isalnum c) = true) :
    c ≠ '>' ∧ c ≠ '{' ∧ c ≠ '}' ∧ c ≠ ':' := by
  refine ⟨?_, ?_, ?_, ?_⟩ <;> (intro e; subst e; revert h; decide)

theorem isValidCaptureName_chars (n : Str) (h : isValidCaptureName n = true) :
    n ≠ [] ∧ ∀ c ∈ n, c ≠ '>' ∧ c ≠ '{' ∧ c ≠ '}' ∧ c ≠ ':' := by
  simp only [isValidCaptureName, Bool.and_eq_true, Bool.not_eq_true', List.isEmpty_eq_false,
    List.all_eq_true] at h
  exact ⟨h.1, fun c hc => isalnum_or_underscore_ne c (h.2 c hc)⟩

/-- The item `(?P<n>` for a valid capture name `n`. -/
theorem scanParen_named (n tail : Str) (h : isValidCaptureName n = true) :
    scanParen ("?P<".toList ++ n ++ '>' :: tail) = (Token.lparenNamed n, tail) := by
  obtain ⟨hne, hch⟩ := isValidCaptureName_chars n h
  have hp : ∀ a ∈ n, (fun x => x != '>') a = true := by
    intro a ha
    simpa using (hch a ha).1
  have htw : (n ++ '>' :: tail).takeWhile (fun x => x != '>') = n := by
    rw [List.takeWhile_append_of_pos hp]
    simp [List.takeWhile]
  have hdw : (n ++ '>' :: tail).dropWhile (fun x => x != '>') = '>' :: tail := by
    rw [List.dropWhile_append_of_pos hp]
    simp [List.dropWhile]
  cases n with
  | nil => exact absurd rfl hne
  | cons a n1 =>
    show scanParen ('?' :: 'P' :: '<' :: a :: (n1 ++ '>' :: tail)) = _
    simp only [scanParen]
    rw [show a :: (n1 ++ '>' :: tail) = (a :: n1) ++ '>' :: tail from rfl, htw, hdw]
    simp [h]

/-- The items of the canonical form of `pre{n}:number`. -/
theorem scanTokens_number (pre n : Str) (hpre : ∀ c ∈ pre, isLiteralChar c = true)
    (hn : isValidCaptureName n = true) :
    scanTokens 0 ("^".toList ++ pre ++ "(?P<".toList ++ n ++ ">[0-9\\.]+)$".toList) =
      Token.caret :: (pre.map Token.lit ++
        [Token.lparenNamed n, Token.cls false [('0', '9'), ('.', '.')],
         Token.rep RepOp.plus true, Token.rparen, Token.dollar]) := by
  have htail : scanTokens 0 "[0-9\\.]+)$".toList =
      [Token.cls false [('0', '9'), ('.', '.')], Token.rep RepOp.plus true, Token.rparen,
        Token.dollar] := by decide
  have hshape : "^".toList ++ pre ++ "(?P<".toList ++ n ++ ">[0-9\\.]+)$".toList =
      '^' :: (pre ++ '(' :: ("?P<".toList ++ n ++ '>' :: "[0-9\\.]+)$".toList)) := by
    simp
  have h1 : ∀ t, scanItem '^' t = (Token.caret, t) := by
    intro t
    simp [scanItem, isLiteralChar, metaChars]
  have h2 : ∀ t, scanItem '(' t = scanParen t := by
    intro t
    simp [scanItem, isLiteralChar, metaChars]
  have hlen : ("?P<".toList ++ n ++ '>' :: "[0-9\\.]+)$".toList).length
      - "[0-9\\.]+)$".toList.length = ("?P<".toList ++ n ++ ['>']).length := by
    simp
  have hsplit : "?P<".toList ++ n ++ '>' :: "[0-9\\.]+)$".toList =
      ("?P<".toList ++ n ++ ['>']) ++ "[0-9\\.]+)$".toList := by simp
  have step1 : ∀ t, scanTokens 0 ('^' :: t) = Token.caret :: scanTokens 0 t := by
    intro t
    simp [scanTokens, h1]
  have step2 : scanTokens 0 ('(' :: ("?P<".toList ++ n ++ '>' :: "[0-9\\.]+)$".toList)) =
      Token.lparenNamed n :: scanTokens 0 "[0-9\\.]+)$".toList := by
    rw [scanTokens, h2, scanParen_named n _ hn]
    simp only []
    rw [hlen]
    conv => lhs; rw [hsplit]
    rw [scanTokens_skip]
  rw [hshape, step1, scanTokens_literals pre _ hpre, step2, htail]

/-- The expression of the canonical form of `pre{n}:number`. -/
theorem goParse_number (pre n : Str) (hpre : ∀ c ∈ pre, isLiteralChar c = true)
    (hn : isValidCaptureName n = true) :
    goParse ("^".toList ++ pre ++ "(?P<".toList ++ n ++ ">[0-9\\.]+)$".toList) =
      Except.ok (mkCat (Regex.beginText :: (pre.map Regex.lit ++
        [Regex.capture 1 n (Regex.plus true (Regex.cls false [('0', '9'), ('.', '.')])),
         Regex.endText])), [n]) := by
  unfold goParse
  rw [scanTokens_number pre n hpre hn]
  simp only [parseTokens]
  rw [parseTokens_literals _ _ _ (by simp [PState.push])]
  simp [parseTokens, pushLiterals, PState.push, PState.init, PState.openGroup, Frame.body,
    mkAlt, mkCat, RepOp.apply]

/-! ## The matcher of `goRegexp`: lemmas -/

theorem flatMap_pure {α : Type} (l : List α) : l.flatMap (fun s => [s]) = l := by
  induction l with
  | nil => rfl
  | cons x xs ih => simp [List.flatMap_cons, ih]

theorem run_mkCat_cons (r : Regex) (rs : List Regex) (s : MState) :
    run (mkCat (r :: rs)) s = (run r s).flatMap (run (mkCat rs)) := by
  cases rs with
  | nil =>
    have : run (mkCat []) = fun s => [s] := by
      funext s
      simp [mkCat, run]
    rw [this, flatMap_pure]
    rfl
  | cons b rs => simp [mkCat, run]

theorem run_lit_cons (c x : Char) (pos : Nat) (rest : Str) (caps : List (Nat × Nat × Nat)) :
    run (Regex.lit c) { pos := pos, rest := x :: rest, caps := caps } =
      if x = c then [{ pos := pos + 1, rest := rest, caps := caps }] else [] := by
  simp [run, stepChar]

/-- A run of literal characters matches exactly itself. -/
theorem run_literals (lits : Str) (rs : List Regex) (pos : Nat) (rest : Str)
    (caps : List (Nat × Nat × Nat)) :
    run (mkCat (lits.map Regex.lit ++ rs)) { pos := pos, rest := rest, caps := caps } =
      if lits.isPrefixOf rest then
        run (mkCat rs) { pos := pos + lits.length, rest := rest.drop lits.length, caps := caps }
      else [] := by
  induction lits generalizing pos rest with
  | nil => simp
  | cons c cs ih =>
    rw [List.map_cons, List.cons_append, run_mkCat_cons]
    cases rest with
    | nil => simp [run, stepChar]
    | cons x xs =>
      rw [run_lit_cons]
      by_cases hx : x = c
      · subst hx
        simp [ih, List.isPrefixOf, Nat.add_assoc, Nat.add_comm 1]
      · have hx2 : ¬ c = x := fun e => hx e.symm
        simp [hx, hx2, List.isPrefixOf]

theorem run_endText (s : MState) :
    run (mkCat [Regex.endText]) s = if s.rest.isEmpty then [s] else [] := by
  simp [mkCat, run]

theorem run_anchored_of_pos (rs : List Regex) (s : MState) (h : s.pos ≠ 0) :
    run (mkCat (Regex.beginText :: rs)) s = [] := by
  rw [run_mkCat_cons]
  simp [run, h]

theorem run_anchored_zero (rs : List Regex) (rest : Str) (caps : List (Nat × Nat × Nat)) :
    run (mkCat (Regex.beginText :: rs)) { pos := 0, rest := rest, caps := caps } =
      run (mkCat rs) { pos := 0, rest := rest, caps := caps } := by
  rw [run_mkCat_cons]
  simp [run]

theorem search_anchored_of_pos (rs : List Regex) (rest : Str) :
    ∀ pos, pos ≠ 0 → search (mkCat (Regex.beginText :: rs)) pos rest = none := by
  induction rest with
  | nil =>
    intro pos h
    simp [search, run_anchored_of_pos rs { pos := pos, rest := [], caps := [] } h]
  | cons c t ih =>
    intro pos h
    simp [search, run_anchored_of_pos rs { pos := pos, rest := c :: t, caps := [] } h,
      ih (pos + 1) (by omega)]

/-- An expression that starts with `^` is only tried at the start of the
text. -/
theorem search_anchored (rs : List Regex) (p : Str) :
    search (mkCat (Regex.beginText :: rs)) 0 p =
      ((run (mkCat rs) { pos := 0, rest := p, caps := [] }).head?).map (fun st => (0, st)) := by
  cases p with
  | nil =>
    simp only [search, run_anchored_zero]
    cases run (mkCat rs) { pos := 0, rest := [], caps := [] } <;> simp
  | cons c t =>
    simp only [search, run_anchored_zero]
    cases run (mkCat rs) { pos := 0, rest := c :: t, caps := [] } with
    | nil => simp [search_anchored_of_pos rs t 1 (by omega)]
    | cons st tl => simp

theorem isPrefixOf_and_drop_nil (lits rest : Str) :
    (lits.isPrefixOf rest = true ∧ rest.drop lits.length = []) ↔ rest = lits := by
  induction lits generalizing rest with
  | nil => cases rest <;> simp
  | cons c cs ih =>
    cases rest with
    | nil => simp
    | cons x xs =>
      simp only [List.isPrefixOf, Bool.and_eq_true, beq_iff_eq, List.length_cons, List.drop_succ_cons,
        List.cons.injEq]
      rw [and_assoc, ih xs]
      constructor
      · rintro ⟨h1, h2⟩
        exact ⟨h1.symm, h2⟩
      · rintro ⟨h1, h2⟩
        exact ⟨h1.symm, h2⟩

/-- The matcher of a template of literal characters accepts the template
itself and nothing else. -/
theorem goMatchString_literals (t p : Str) (names : List Str) :
    goMatchString { expr := mkCat (Regex.beginText :: (t.map Regex.lit ++ [Regex.endText])),
                    names := names } p = true ↔ p = t := by
  unfold goMatchString
  rw [search_anchored, run_literals, run_endText]
  rw [← isPrefixOf_and_drop_nil t p]
  by_cases h1 : t.isPrefixOf p = true
  · by_cases h2 : p.drop t.length = []
    · simp [h1, h2]
    · simp [h1, h2]
  · simp [h1]

theorem run_cls_cons (neg : Bool) (ranges : List (Char × Char)) (c : Char) (pos : Nat)
    (rest : Str) (caps : List (Nat × Nat × Nat)) :
    run (Regex.cls neg ranges) { pos := pos, rest := c :: rest, caps := caps } =
      if classMatches neg ranges c = true then [{ pos := pos + 1, rest := rest, caps := caps }]
      else [] := by
  simp [run, stepChar]

theorem run_cls_nil (neg : Bool) (ranges : List (Char × Char)) (pos : Nat)
    (caps : List (Nat × Nat × Nat)) :
    run (Regex.cls neg ranges) { pos := pos, rest := [], caps := caps } = [] := by
  simp [run, stepChar]

theorem iterate_succ_greedy (step : MState → List MState) (fuel : Nat) (s : MState) :
    iterate step true (fuel + 1) s =
      ((step s).filter (fun s2 => s2.rest.length < s.rest.length)).flatMap
        (iterate step true fuel) ++ [s] := by
  simp [iterate]

/-- A greedy repetition of a class over a text of the class takes the whole
text first. -/
theorem iterate_class_head (neg : Bool) (ranges : List (Char × Char)) (d : Str)
    (h : ∀ c ∈ d, classMatches neg ranges c = true) :
    ∀ fuel pos caps, d.length ≤ fuel →
      ∃ tl, iterate (run (Regex.cls neg ranges)) true fuel { pos := pos, rest := d, caps := caps } =
        { pos := pos + d.length, rest := [], caps := caps } :: tl := by
  induction d with
  | nil =>
    intro fuel pos caps _
    cases fuel with
    | zero => exact ⟨[], by simp [iterate]⟩
    | succ n => exact ⟨[], by simp [iterate_succ_greedy, run_cls_nil]⟩
  | cons c cs ih =>
    intro fuel pos caps hf
    cases fuel with
    | zero => simp at hf
    | succ n =>
      have hc := h c (List.mem_cons_self _ _)
      have hn : cs.length ≤ n := by simpa using hf
      obtain ⟨tl, htl⟩ := ih (fun x hx => h x (List.mem_cons_of_mem _ hx)) n (pos + 1) caps hn
      refine ⟨tl ++ [{ pos := pos, rest := c :: cs, caps := caps }], ?_⟩
      rw [iterate_succ_greedy, run_cls_cons, if_pos hc]
      simp only [List.filter, List.length_cons, Nat.lt_succ_self, decide_True, List.flatMap_cons,
        List.flatMap_nil, List.append_nil]
      rw [htl]
      simp [Nat.add_assoc, Nat.add_comm 1]

theorem run_plus_class_head (neg : Bool) (ranges : List (Char × Char)) (d : Str) (hne : d ≠ [])
    (h : ∀ c ∈ d, classMatches neg ranges c = true) (pos : Nat) (caps : List (Nat × Nat × Nat)) :
    ∃ tl, run (Regex.plus true (Regex.cls neg ranges)) { pos := pos, rest := d, caps := caps } =
      { pos := pos + d.length, rest := [], caps := caps } :: tl := by
  cases d with
  | nil => exact absurd rfl hne
  | cons c cs =>
    have hc := h c (List.mem_cons_self _ _)
    obtain ⟨tl, htl⟩ := iterate_class_head neg ranges cs
      (fun x hx => h x (List.mem_cons_of_mem _ hx)) cs.length (pos + 1) caps (Nat.le_refl _)
    refine ⟨tl, ?_⟩
    rw [show run (Regex.plus true (Regex.cls neg ranges))
          { pos := pos, rest := c :: cs, caps := caps } =
        (run (Regex.cls neg ranges) { pos := pos, rest := c :: cs, caps := caps }).flatMap
          (fun s2 => iterate (run (Regex.cls neg ranges)) true s2.rest.length s2) from rfl]
    rw [run_cls_cons, if_pos hc]
    simp only [List.flatMap_cons, List.flatMap_nil, List.append_nil]
    rw [htl]
    simp [Nat.add_assoc, Nat.add_comm 1]

theorem run_capture (index : Nat) (name : Str) (a : Regex) (s : MState) :
    run (Regex.capture index name a) s =
      (run a s).map (fun s2 => { s2 with caps := (index, s.pos, s2.pos) :: s2.caps }) := rfl

theorem search_number (pre n d : Str) (hne : d ≠ [])
    (hd : ∀ c ∈ d, ('0' ≤ c ∧ c ≤ '9') ∨ c = '.') :
    search (numberExpr pre n) 0 (pre ++ d) =
      some (0, { pos := pre.length + d.length, rest := [],
                 caps := [(1, pre.length, pre.length + d.length)] }) := by
  have hcls : ∀ c ∈ d, classMatches false [('0', '9'), ('.', '.')] c = true := by
    intro c hc
    rcases hd c hc with ⟨h1, h2⟩ | h
    · simp [classMatches, h1, h2]
    · subst h
      decide
  obtain ⟨tl, htl⟩ := run_plus_class_head false [('0', '9'), ('.', '.')] d hne hcls pre.length []
  unfold numberExpr numberClass
  rw [search_anchored, run_literals]
  have hp : pre.isPrefixOf (pre ++ d) = true := by
    rw [List.isPrefixOf_iff_prefix]
    exact List.prefix_append _ _
  have hdrop : (pre ++ d).drop pre.length = d := by simp
  rw [if_pos hp, run_mkCat_cons, run_capture, hdrop]
  simp only [Nat.zero_add]
  rw [htl]
  simp [run_endText]

/-- On the path `pre ++ d`, the matcher of `pre{n}:number` reports the whole
path and the text `d` of its group. -/
theorem goFindStringSubmatch_number (pre n d : Str) (hne : d ≠ [])
    (hd : ∀ c ∈ d, ('0' ≤ c ∧ c ≤ '9') ∨ c = '.') :
    goFindStringSubmatch { expr := numberExpr pre n, names := [n] } (pre ++ d) =
      [pre ++ d, d] := by
  simp [goFindStringSubmatch, search_number pre n d hne hd, slice, captureText, List.range,
    List.range.loop]

theorem goMatchString_number (pre n d : Str) (hne : d ≠ [])
    (hd : ∀ c ∈ d, ('0' ≤ c ∧ c ≤ '9') ∨ c = '.') :
    goMatchString { expr := numberExpr pre n, names := [n] } (pre ++ d) = true := by
  simp [goMatchString, search_number pre n d hne hd]

/-! ## Dispatch on a `:number` route -/

theorem isLiteralChar_ne_brace (c : Char) (h : isLiteralChar c = true) : c ≠ '{' := by
  intro e
  subst e
  revert h
  decide

/-- The registry that holds only the route `(m, pre{n}:number, h)`. -/
theorem RegisterHandler_number {H : Type} (m pre n : Str) (h : H)
    (hpre : ∀ c ∈ pre, isLiteralChar c = true ∧ c ≠ '}' ∧ c ≠ ':')
    (hn : isValidCaptureName n = true) :
    RegisterHandler (NewRelax goRegexp H) m (pre ++ "\x7b".toList ++ n ++ "\x7d:number".toList) h =
      (true, { relaxHandlerMap :=
        [("^".toList ++ pre ++ "(?P<".toList ++ n ++ ">[0-9\\.]+)$".toList,
          { method := m, path := some { expr := numberExpr pre n, names := [n] },
            funcHandler := h })] }) := by
  have hcan := canonical_number pre n
    (fun c hc => ⟨isLiteralChar_ne_brace c (hpre c hc).1, (hpre c hc).2.1, (hpre c hc).2.2⟩)
    (fun c hc => ((isValidCaptureName_chars n hn).2 c hc).2)
  have h0 : ¬ Conflicts (NewRelax goRegexp H) m (pre ++ "\x7b".toList ++ n ++ "\x7d:number".toList) := by
    rintro ⟨v, hv, -⟩
    simp [NewRelax, mapGet] at hv
  rw [RegisterHandler_of_no_conflict _ _ _ _ h0, hcan]
  have hcomp : goCompile ("^".toList ++ pre ++ "(?P<".toList ++ n ++ ">[0-9\\.]+)$".toList) =
      some { expr := numberExpr pre n, names := [n] } := by
    unfold goCompile
    rw [goParse_number pre n (fun c hc => (hpre c hc).1) hn]
    rfl
  simp only [hcomp, NewRelax, mapSet]

theorem applyPath_number (pre n d : Str) (hne : d ≠ [])
    (hd : ∀ c ∈ d, ('0' ≤ c ∧ c ≤ '9') ∨ c = '.') :
    applyPath goRegexp (pre ++ d) (some { expr := numberExpr pre n, names := [n] }) =
      Except.ok [(n, d)] := by
  simp [applyPath, goMatchString_number pre n d hne hd, goFindStringSubmatch_number pre n d hne hd,
    goSubexpNames, applyPathLoop, mapSet]

theorem mainHandler_number {H : Type} (m pre n d q : Str) (h : H) (w : List WriterCall)
    (hpre : ∀ c ∈ pre, isLiteralChar c = true ∧ c ≠ '}' ∧ c ≠ ':')
    (hn : isValidCaptureName n = true) (hne : d ≠ [])
    (hd : ∀ c ∈ d, ('0' ≤ c ∧ c ≤ '9') ∨ c = '.') :
    mainHandler
        (RegisterHandler (NewRelax goRegexp H) m
          (pre ++ "\x7b".toList ++ n ++ "\x7d:number".toList) h).2.relaxHandlerMap
        w { Method := m, Path := pre ++ d, RawQuery := q } =
      Outcome.invoked h
        { params := some [(n, d)], Request := { Method := m, Path := pre ++ d, RawQuery := q } }
        { responseWriter := w } := by
  rw [RegisterHandler_number m pre n h hpre hn]
  rw [mainHandler_eq _ _ _ (by simp)]
  simp [routeMatches, goMatchString_number pre n d hne hd, applyPath_number pre n d hne hd]

/-! ## The claims that depend on the expressions -/

/-- On a fresh registry, a second registration of the same template under
another method returns true and leaves the registry with the second route
only. -/
theorem RegisterHandler_other_method (L : RegexpLib) (H : Type) (m1 m2 t : Str) (h1 h2 : H)
    (hne : m1 ≠ m2) :
    RegisterHandler (RegisterHandler (NewRelax L H) m1 t h1).2 m2 t h2 =
      (true, { relaxHandlerMap :=
        [(canonical t, { method := m2, path := L.Compile (canonical t), funcHandler := h2 })] }) := by
  have h0 : ¬ Conflicts (NewRelax L H) m1 t := by
    rintro ⟨v, hv, -⟩
    simp [NewRelax, mapGet] at hv
  have e1 : (RegisterHandler (NewRelax L H) m1 t h1).2 =
      { relaxHandlerMap :=
          [(canonical t, { method := m1, path := L.Compile (canonical t), funcHandler := h1 })] } := by
    rw [RegisterHandler_of_no_conflict (NewRelax L H) m1 t h1 h0]
    simp [NewRelax, mapSet]
  rw [e1]
  have h3 : ¬ Conflicts (L := L) (H := H) { relaxHandlerMap :=
      [(canonical t, { method := m1, path := L.Compile (canonical t), funcHandler := h1 })] }
      m2 t := by
    rintro ⟨v, hv, hm⟩
    simp [mapGet] at hv
    subst hv
    exact hne hm
  rw [RegisterHandler_of_no_conflict _ m2 t h2 h3]
  simp [mapSet]

/-- C3: on a fresh registry, `RegisterHandler("GET", "/a", 1)` and then
`RegisterHandler("POST", "/a", 2)` both return true, but the second call
overwrites the entry of the first: the registry holds the `POST` route only,
and dispatching `("GET", "/a")` writes 405 instead of calling handler 1. -/
theorem RegisterHandler_second_method_overwrites :
    (RegisterHandler (NewRelax goRegexp Nat) "GET".toList "/a".toList 1).1 = true ∧
    (RegisterHandler (RegisterHandler (NewRelax goRegexp Nat) "GET".toList "/a".toList 1).2
      "POST".toList "/a".toList 2).1 = true ∧
    (RegisterHandler (RegisterHandler (NewRelax goRegexp Nat) "GET".toList "/a".toList 1).2
      "POST".toList "/a".toList 2).2.relaxHandlerMap =
      [("^/a$".toList,
        { method := "POST".toList,
          path := some { expr := mkCat [Regex.beginText, Regex.lit '/', Regex.lit 'a',
                                         Regex.endText], names := [] },
          funcHandler := 2 })] ∧
    goMatchString { expr := mkCat [Regex.beginText, Regex.lit '/', Regex.lit 'a', Regex.endText],
                    names := [] } "/a".toList = true ∧
    mainHandler
      (RegisterHandler (RegisterHandler (NewRelax goRegexp Nat) "GET".toList "/a".toList 1).2
        "POST".toList "/a".toList 2).2.relaxHandlerMap []
      { Method := "GET".toList, Path := "/a".toList, RawQuery := [] } =
      Outcome.sent { responseWriter :=
        [WriterCall.WriteHeader 405, WriterCall.Write "Method Not Allowed".toList] } ∧
    mainHandler
      (RegisterHandler (RegisterHandler (NewRelax goRegexp Nat) "GET".toList "/a".toList 1).2
        "POST".toList "/a".toList 2).2.relaxHandlerMap []
      { Method := "POST".toList, Path := "/a".toList, RawQuery := [] } =
      Outcome.invoked 2
        { params := some [], Request := { Method := "POST".toList, Path := "/a".toList, RawQuery := [] } }
        { responseWriter := [] } := by
  refine ⟨by rfl, by rfl, by rfl, by decide, by decide, by decide⟩

/-- C4, as stated, fails: the canonical form of `/items/{id:number}` is
`^/items/(?P<id[0-9\.]+)>$`, which is no valid expression (the group name runs
up to the `>`), so the route is stored without matcher and dispatching
`("GET", "/items/42")` ends in a nil dereference instead of calling the
handler. -/
theorem dispatch_brace_number_template_panics :
    canonical "/items/{id:number}".toList = "^/items/(?P<id[0-9\\.]+)>$".toList ∧
    goParse "^/items/(?P<id[0-9\\.]+)>$".toList = Except.error ParseError.invalidNamedCapture ∧
    (RegisterHandler (NewRelax goRegexp Nat) "GET".toList "/items/{id:number}".toList 7).2.relaxHandlerMap
      = [("^/items/(?P<id[0-9\\.]+)>$".toList,
          { method := "GET".toList, path := none, funcHandler := 7 })] ∧
    mainHandler
      (RegisterHandler (NewRelax goRegexp Nat) "GET".toList
        "/items/{id:number}".toList 7).2.relaxHandlerMap []
      { Method := "GET".toList, Path := "/items/42".toList, RawQuery := [] } =
      Outcome.panicked Panic.nilDereference ∧
    (∀ (rq : RelaxRequest) (res : RelaxResponse),
      mainHandler
        (RegisterHandler (NewRelax goRegexp Nat) "GET".toList
          "/items/{id:number}".toList 7).2.relaxHandlerMap []
        { Method := "GET".toList, Path := "/items/42".toList, RawQuery := [] } ≠
      Outcome.invoked 7 rq res) := by
  have hp : mainHandler
      (RegisterHandler (NewRelax goRegexp Nat) "GET".toList
        "/items/{id:number}".toList 7).2.relaxHandlerMap []
      { Method := "GET".toList, Path := "/items/42".toList, RawQuery := [] } =
      Outcome.panicked Panic.nilDereference := by decide
  refine ⟨by decide, by rfl, by rfl, hp, ?_⟩
  intro rq res h
  rw [hp] at h
  cases h

/-- C4, amended: with the type suffix after the closing brace.  For the
registry that holds only the route `("GET", "/items/{id}:number")`,
dispatching `("GET", "/items/42")` calls the handler with `Param("id") = "42"`,
dispatching `("GET", "/items/abc")` writes 404 and dispatching
`("POST", "/items/42")` writes 405.  More generally, for a prefix of literal
characters (no metacharacter of expressions, no brace, no colon), a valid
capture name `n` and a non-empty text `d` of digits and `.`, the route
registered alone with the template `pre{n}:number` dispatches the path
`pre ++ d` to its handler with `Param(n) = d`. -/
theorem dispatch_number_route :
    (mainHandler
        (RegisterHandler (NewRelax goRegexp Nat) "GET".toList
          "/items/{id}:number".toList 7).2.relaxHandlerMap []
        { Method := "GET".toList, Path := "/items/42".toList, RawQuery := [] } =
      Outcome.invoked 7
        { params := some [("id".toList, "42".toList)],
          Request := { Method := "GET".toList, Path := "/items/42".toList, RawQuery := [] } }
        { responseWriter := [] } ∧
     Param { params := some [("id".toList, "42".toList)],
             Request := { Method := "GET".toList, Path := "/items/42".toList, RawQuery := [] } }
        "id".toList = Except.ok "42".toList ∧
     mainHandler
        (RegisterHandler (NewRelax goRegexp Nat) "GET".toList
          "/items/{id}:number".toList 7).2.relaxHandlerMap []
        { Method := "GET".toList, Path := "/items/abc".toList, RawQuery := [] } =
      Outcome.sent { responseWriter :=
        [WriterCall.WriteHeader 404, WriterCall.Write "Not Found".toList] } ∧
     mainHandler
        (RegisterHandler (NewRelax goRegexp Nat) "GET".toList
          "/items/{id}:number".toList 7).2.relaxHandlerMap []
        { Method := "POST".toList, Path := "/items/42".toList, RawQuery := [] } =
      Outcome.sent { responseWriter :=
        [WriterCall.WriteHeader 405, WriterCall.Write "Method Not Allowed".toList] }) ∧
    (∀ (H : Type) (h : H) (m pre n d q : Str) (w : List WriterCall),
      (∀ c ∈ pre, isLiteralChar c = true ∧ c ≠ '}' ∧ c ≠ ':') →
      isValidCaptureName n = true →
      d ≠ [] →
      (∀ c ∈ d, ('0' ≤ c ∧ c ≤ '9') ∨ c = '.') →
      mainHandler
          (RegisterHandler (NewRelax goRegexp H) m
            (pre ++ "\x7b".toList ++ n ++ "\x7d:number".toList) h).2.relaxHandlerMap
          w { Method := m, Path := pre ++ d, RawQuery := q } =
        Outcome.invoked h
          { params := some [(n, d)], Request := { Method := m, Path := pre ++ d, RawQuery := q } }
          { responseWriter := w } ∧
      Param { params := some [(n, d)], Request := { Method := m, Path := pre ++ d, RawQuery := q } } n
        = Except.ok d) := by
  refine ⟨⟨by decide, by rfl, by decide, by decide⟩, ?_⟩
  intro H h m pre n d q w hpre hn hne hd
  refine ⟨mainHandler_number m pre n d q h w hpre hn hne hd, ?_⟩
  simp [Param, mapGet]

/-- C4, amended, at a concrete input: the template `/v1/users/{uid}:number`
under `PUT` and the path `/v1/users/3.14`. -/
theorem dispatch_number_route_witness :
    mainHandler
        (RegisterHandler (NewRelax goRegexp Nat) "PUT".toList
          ("/v1/users/".toList ++ "\x7b".toList ++ "uid".toList ++ "\x7d:number".toList)
          3).2.relaxHandlerMap
        [] { Method := "PUT".toList, Path := "/v1/users/".toList ++ "3.14".toList,
             RawQuery := "x=1".toList } =
      Outcome.invoked 3
        { params := some [("uid".toList, "3.14".toList)],
          Request := { Method := "PUT".toList, Path := "/v1/users/".toList ++ "3.14".toList,
                       RawQuery := "x=1".toList } }
        { responseWriter := [] } ∧
    Param { params := some [("uid".toList, "3.14".toList)],
            Request := { Method := "PUT".toList, Path := "/v1/users/".toList ++ "3.14".toList,
                         RawQuery := "x=1".toList } } "uid".toList = Except.ok "3.14".toList :=
  dispatch_number_route.2 Nat 3 "PUT".toList "/v1/users/".toList "uid".toList "3.14".toList
    "x=1".toList [] (by decide) (by decide) (by decide) (by decide)

/-- C5, at a concrete input: the registry with the routes `("GET", "/a")` and
`("POST", "/{x}:string")`, scanned in reverse order, and the request
`("GET", "/a/b")`, which no route matches. -/
theorem mainHandler_notFound_iff_witness :
    (∀ e ∈ overlappingRelax.relaxHandlerMap, e.2.path.isSome = true) ∧
    (∀ e ∈ overlappingRelax.relaxHandlerMap, routeMatches "/a/b".toList e.2 = false) ∧
    mainHandler overlappingRelax.relaxHandlerMap.reverse []
        { Method := "GET".toList, Path := "/a/b".toList, RawQuery := [] } =
      Outcome.sent { responseWriter :=
        [] ++ [WriterCall.WriteHeader 404, WriterCall.Write "Not Found".toList] } :=
  ⟨by decide, by decide,
    (mainHandler_notFound_iff overlappingRelax overlappingRelax.relaxHandlerMap.reverse []
      { Method := "GET".toList, Path := "/a/b".toList, RawQuery := [] } (by decide)
      (List.reverse_perm _)).1.2 (by decide)⟩

/-- C6, as stated, fails: in the registry with the routes `("GET", "/a")` and
`("POST", "/{x}:string")`, whose matchers both match `/a`, the scan order that
visits the `POST` route first makes the dispatcher write 405 for
`("GET", "/a")`, although a registered route matches the path and has the
method `GET`. -/
theorem mainHandler_405_despite_matching_route :
    overlappingRelax.relaxHandlerMap.map (fun e => (e.1, e.2.method)) =
      [("^/a$".toList, "GET".toList), ("^/(?P<x>[0-9a-zA-Z_]+)$".toList, "POST".toList)] ∧
    (∀ e ∈ overlappingRelax.relaxHandlerMap, e.2.path.isSome = true) ∧
    overlappingRelax.relaxHandlerMap.reverse.Perm overlappingRelax.relaxHandlerMap ∧
    mainHandler overlappingRelax.relaxHandlerMap.reverse []
        { Method := "GET".toList, Path := "/a".toList, RawQuery := [] } =
      Outcome.sent { responseWriter :=
        [WriterCall.WriteHeader 405, WriterCall.Write "Method Not Allowed".toList] } ∧
    (∃ e ∈ overlappingRelax.relaxHandlerMap,
      routeMatches "/a".toList e.2 = true ∧ e.2.method = "GET".toList) :=
  ⟨by decide, by decide, List.reverse_perm _, by decide, by decide⟩

/-- C6, amended, at a concrete input: the same registry and scan order; the
first route in scan order that matches `/a` is the `POST` route. -/
theorem mainHandler_methodNotAllowed_iff_witness :
    (∃ e, overlappingRelax.relaxHandlerMap.reverse.find?
        (fun e => routeMatches "/a".toList e.2) = some e ∧ e.2.method ≠ "GET".toList) ∧
    mainHandler overlappingRelax.relaxHandlerMap.reverse []
        { Method := "GET".toList, Path := "/a".toList, RawQuery := [] } =
      Outcome.sent { responseWriter :=
        [] ++ [WriterCall.WriteHeader 405, WriterCall.Write "Method Not Allowed".toList] } := by
  have h := (mainHandler_methodNotAllowed_iff overlappingRelax
    overlappingRelax.relaxHandlerMap.reverse []
    { Method := "GET".toList, Path := "/a".toList, RawQuery := [] } (by decide)
    (List.reverse_perm _)).1
  have hex : ∃ e, overlappingRelax.relaxHandlerMap.reverse.find?
      (fun e => routeMatches "/a".toList e.2) = some e ∧ e.2.method ≠ "GET".toList :=
    ⟨_, rfl, by decide⟩
  exact ⟨hex, h.2 hex⟩

/-- C7, as stated, fails: the canonical form `^/a/(?P<id$` of the template
`/a/{id` is no valid expression (and neither is `/a/(?P<id`), yet
`RegisterHandler` returns true on the empty registry and stores a route
without matcher. -/
theorem RegisterHandler_accepts_invalid_template :
    canonical "/a/\x7bid".toList = "^/a/(?P<id$".toList ∧
    goParse "^/a/(?P<id$".toList = Except.error ParseError.invalidNamedCapture ∧
    goParse (substitute "/a/\x7bid".toList) = Except.error ParseError.invalidNamedCapture ∧
    goRegexp.Compile (canonical "/a/\x7bid".toList) = none ∧
    (RegisterHandler (NewRelax goRegexp Nat) "GET".toList "/a/\x7bid".toList 1).1 = true ∧
    (RegisterHandler (NewRelax goRegexp Nat) "GET".toList "/a/\x7bid".toList 1).2.relaxHandlerMap =
      [("^/a/(?P<id$".toList, { method := "GET".toList, path := none, funcHandler := 1 })] ∧
    (RegisterHandler (NewRelax goRegexp Nat) "GET".toList "/a/\x7bid".toList 1).2.relaxHandlerMap ≠
      (NewRelax goRegexp Nat).relaxHandlerMap := by
  refine ⟨by decide, by rfl, by rfl, by rfl, by rfl, by rfl, ?_⟩
  intro h
  exact List.noConfusion h

/-- C7, amended: what `compileactualURL` compiles is the canonical form, the
substituted template between `^` and `$`, and `RegisterHandler` does not look
at the result of the compilation.  For a template whose canonical form is no
valid expression it returns false and leaves the registry unchanged when the registry holds a
route of the same method under that canonical form; otherwise it returns
true and stores under the canonical form a route without matcher, every other
key being as before. -/
theorem RegisterHandler_ignores_compile_error {L : RegexpLib} {H : Type} (r : Relax L H)
    (m t : Str) (h : H) (hbad : L.Compile (canonical t) = none) :
    ((∃ v, mapGet r.relaxHandlerMap (canonical t) = some v ∧ v.method = m) →
      RegisterHandler r m t h = (false, r)) ∧
    ((¬ ∃ v, mapGet r.relaxHandlerMap (canonical t) = some v ∧ v.method = m) →
      (RegisterHandler r m t h).1 = true ∧
      mapGet (RegisterHandler r m t h).2.relaxHandlerMap (canonical t) =
        some { method := m, path := none, funcHandler := h } ∧
      ∀ k, k ≠ canonical t →
        mapGet (RegisterHandler r m t h).2.relaxHandlerMap k = mapGet r.relaxHandlerMap k) := by
  refine ⟨fun hc => RegisterHandler_of_conflict r m t h hc, fun hc => ?_⟩
  rw [RegisterHandler_of_no_conflict r m t h hc, hbad]
  exact ⟨rfl, mapGet_mapSet_same _ _ _, fun k hk => mapGet_mapSet_other _ _ _ _ hk⟩

/-- C7, amended, at a concrete input: the template `/a/{id` on the empty
registry. -/
theorem RegisterHandler_ignores_compile_error_witness :
    goRegexp.Compile (canonical "/a/\x7bid".toList) = none ∧
    (RegisterHandler (NewRelax goRegexp Nat) "GET".toList "/a/\x7bid".toList 1).1 = true ∧
    mapGet (RegisterHandler (NewRelax goRegexp Nat) "GET".toList "/a/\x7bid".toList 1).2.relaxHandlerMap
        (canonical "/a/\x7bid".toList) =
      some { method := "GET".toList, path := none, funcHandler := 1 } := by
  have h := (RegisterHandler_ignores_compile_error (NewRelax goRegexp Nat) "GET".toList
    "/a/\x7bid".toList 1 (by rfl)).2 (by rintro ⟨v, hv, -⟩; simp [NewRelax, mapGet] at hv)
  exact ⟨by rfl, h.1, h.2.1⟩

/-- The substituted template and the canonical form need not be valid
together: the substituted text of the template `/a\` ends in a lone
backslash and is no valid expression, while its canonical form `^/a\$`, in
which the backslash escapes the closing `$`, compiles; the route is stored
with a matcher, and the matcher accepts the path `/a$`. -/
theorem canonical_valid_substituted_invalid :
    substitute "/a\\".toList = "/a\\".toList ∧
    goParse (substitute "/a\\".toList) = Except.error ParseError.trailingBackslash ∧
    canonical "/a\\".toList = "^/a\\$".toList ∧
    (goRegexp.Compile (canonical "/a\\".toList)).isSome = true ∧
    ((RegisterHandler (NewRelax goRegexp Nat) "GET".toList "/a\\".toList 1).2.relaxHandlerMap.map
      (fun e => (e.1, e.2.path.isSome))) = [("^/a\\$".toList, true)] ∧
    ((compileactualURL goRegexp "/a\\".toList).1.map
      (fun re => goRegexp.MatchString re "/a$".toList)) = some true :=
  ⟨by decide, by rfl, by decide, by rfl, by rfl, by rfl⟩

/-- C8: `Send("100%", 200)` does not write the body as it is: the body is
used as a format string, and the text written is `100%!(NOVERB)`. -/
theorem Send_percent_body :
    Send { responseWriter := [] } "100%".toList 200 =
      { responseWriter := [WriterCall.WriteHeader 200, WriterCall.Write "100%!(NOVERB)".toList] } ∧
    Send { responseWriter := [] } "100%".toList 200 ≠
      { responseWriter := [WriterCall.WriteHeader 200, WriterCall.Write "100%".toList] } ∧
    Send { responseWriter := [] } "a%20b".toList 200 =
      { responseWriter := [WriterCall.WriteHeader 200, WriterCall.Write "a%!b(MISSING)".toList] } := by
  refine ⟨by decide, by decide, by decide⟩

/-- C9, as stated, fails: the template `/file.json` contains none of the four
tokens, and its matcher accepts the path `/fileXjson`, since the `.` of the
template matches any character. -/
theorem literal_dot_matches_any :
    (∀ tok ∈ lookFor, occursIn tok "/file.json".toList = false) ∧
    ((compileactualURL goRegexp "/file.json".toList).1.map
      (fun re => goRegexp.MatchString re "/fileXjson".toList)) = some true ∧
    "/fileXjson".toList ≠ "/file.json".toList := by
  refine ⟨by decide, by decide, by decide⟩

/-- C9, amended: for every template that contains none of the four tokens and
none of the characters `\ . + * ? ( ) | [ { ^ $`, compilation succeeds and
the matcher accepts a path if and only if the path is the template. -/
theorem literal_template_matches_itself (t p : Str)
    (hlit : ∀ c ∈ t, isLiteralChar c = true)
    (htok : ∀ tok ∈ lookFor, occursIn tok t = false) :
    ∃ re, (compileactualURL goRegexp t).1 = some re ∧
      (goRegexp.MatchString re p = true ↔ p = t) := by
  refine ⟨{ expr := mkCat (Regex.beginText :: (t.map Regex.lit ++ [Regex.endText])),
            names := [] }, ?_, goMatchString_literals t p []⟩
  show goCompile (canonical t) = _
  unfold canonical goCompile
  rw [substitute_of_no_token t htok, goParse_literals t hlit]

/-- C9, amended, at a concrete input: the template `/health/check_1`. -/
theorem literal_template_matches_itself_witness :
    ∃ re, (compileactualURL goRegexp "/health/check_1".toList).1 = some re ∧
      (goRegexp.MatchString re "/health/check_1".toList = true ↔
        "/health/check_1".toList = "/health/check_1".toList) :=
  literal_template_matches_itself "/health/check_1".toList "/health/check_1".toList
    (by decide) (by decide)

/-- Every request that `mainHandler` passes to a handler has its `params`
pointer set. -/
theorem mainHandler_params_isSome {L : RegexpLib} {H : Type}
    (scan : List (Str × RelaxHandler L H)) (w : List WriterCall) (req : HttpRequest)
    (h : H) (rq : RelaxRequest) (res : RelaxResponse)
    (hi : mainHandler scan w req = Outcome.invoked h rq res) :
    ∃ params, rq.params = some params := by
  unfold mainHandler at hi
  cases hs : scanLoop req.Path req.Method scan (StatusNotFound, none) with
  | error p =>
    rw [hs] at hi
    cases hi
  | ok st =>
    obtain ⟨statusCode, relaxHandler⟩ := st
    rw [hs] at hi
    cases relaxHandler with
    | none => cases hi
    | some value =>
      simp only at hi
      by_cases hc : statusCode = StatusOK
      · simp only [hc, if_true] at hi
        cases ha : applyPath L req.Path value.path with
        | error p =>
          rw [ha] at hi
          cases hi
        | ok params =>
          rw [ha] at hi
          cases hi
          exact ⟨params, rfl⟩
      · simp only [hc, if_false] at hi
        cases hi

/-- C11, as stated, fails: on the zero value of `RelaxRequest`, whose `params`
pointer is nil, `Param` ends in a nil dereference instead of returning the
empty string. -/
theorem Param_nil_params_panics :
    Param { params := none, Request := { Method := [], Path := [], RawQuery := [] } }
      "id".toList = Except.error Panic.nilDereference ∧
    Param { params := none, Request := { Method := [], Path := [], RawQuery := [] } }
      "id".toList ≠ Except.ok [] := by
  refine ⟨rfl, ?_⟩
  intro h
  cases h

/-- C11, amended: for every request whose `params` pointer is set, `Param(n)`
returns the value stored for `n` in the map when `n` is present and the empty
string when it is absent, without failing; and every request that the
dispatcher passes to a handler has its `params` pointer set. -/
theorem Param_present_or_empty (rr : RelaxRequest) (params : List (Str × Str)) (n : Str)
    (hp : rr.params = some params) :
    (∀ v, mapGet params n = some v → Param rr n = Except.ok v) ∧
    (mapGet params n = none → Param rr n = Except.ok []) ∧
    (∀ (L : RegexpLib) (H : Type) (scan : List (Str × RelaxHandler L H)) (w : List WriterCall)
      (req : HttpRequest) (h : H) (rq : RelaxRequest) (res : RelaxResponse),
      mainHandler scan w req = Outcome.invoked h rq res → ∃ m, rq.params = some m) := by
  refine ⟨?_, ?_, ?_⟩
  · intro v hv
    simp [Param, hp, hv]
  · intro hn
    simp [Param, hp, hn]
  · intro L H scan w req h rq res hi
    exact mainHandler_params_isSome scan w req h rq res hi

/-- C11, amended, at a concrete input: the parameters `id = 42`, asked for
`id` and for `name`. -/
theorem Param_present_or_empty_witness :
    Param { params := some [("id".toList, "42".toList)],
            Request := { Method := "GET".toList, Path := "/items/42".toList, RawQuery := [] } }
      "id".toList = Except.ok "42".toList ∧
    Param { params := some [("id".toList, "42".toList)],
            Request := { Method := "GET".toList, Path := "/items/42".toList, RawQuery := [] } }
      "name".toList = Except.ok [] :=
  ⟨(Param_present_or_empty
      { params := some [("id".toList, "42".toList)],
        Request := { Method := "GET".toList, Path := "/items/42".toList, RawQuery := [] } }
      [("id".toList, "42".toList)] "id".toList rfl).1 _ (by decide),
   (Param_present_or_empty
      { params := some [("id".toList, "42".toList)],
        Request := { Method := "GET".toList, Path := "/items/42".toList, RawQuery := [] } }
      [("id".toList, "42".toList)] "name".toList rfl).2.1 (by decide)⟩

/-! ## `applyPath`: lemmas -/

/-- The loop of `applyPath` from a position `index ≥ 1`, when `values` has an
entry for each of the remaining keys: it sets every key, to the value at its
position; of several equal keys the last one decides. -/
theorem applyPathLoop_spec (values : List Str) (keys : List Str) :
    ∀ (index : Nat) (result : List (Str × Str)), 1 ≤ index →
      index + keys.length ≤ values.length →
      ∃ m, applyPathLoop values index keys result = Except.ok m ∧
        (∀ k, k ∉ keys → mapGet m k = mapGet result k) ∧
        (∀ i k, keys.get? i = some k →
          ∃ v, mapGet m k = some v ∧
            ((∀ j, i < j → keys.get? j ≠ some k) → values.get? (index + i) = some v)) := by
  induction keys with
  | nil =>
    intro index result _ _
    exact ⟨result, rfl, fun _ _ => rfl, fun i k h => by simp at h⟩
  | cons k0 ks ih =>
    intro index result h1 hlen
    have hidx : index < values.length := by
      simp only [List.length_cons] at hlen
      omega
    have hne : index ≠ 0 := by omega
    obtain ⟨m, hm, hout, hin⟩ := ih (index + 1) (mapSet result k0 (values.get ⟨index, hidx⟩))
      (by omega) (by simp only [List.length_cons] at hlen; omega)
    refine ⟨m, ?_, ?_, ?_⟩
    · simp only [applyPathLoop, hne, ne_eq, not_false_eq_true, if_true,
        List.get?_eq_get hidx]
      exact hm
    · intro k hk
      have hk0 : k ≠ k0 := fun e => hk (by simp [e])
      have hks : k ∉ ks := fun e => hk (List.mem_cons_of_mem _ e)
      rw [hout k hks, mapGet_mapSet_other _ _ _ _ hk0]
    · intro i k hik
      cases i with
      | zero =>
        simp only [List.get?_cons_zero, Option.some.injEq] at hik
        subst hik
        by_cases hmem : k0 ∈ ks
        · obtain ⟨i2, hi2⟩ := List.get?_of_mem hmem
          obtain ⟨v, hv, -⟩ := hin i2 k0 hi2
          refine ⟨v, hv, fun hlast => ?_⟩
          exact absurd (by simpa using hi2) (hlast (i2 + 1) (by omega))
        · refine ⟨values.get ⟨index, hidx⟩, ?_, fun _ => ?_⟩
          · rw [hout k0 hmem, mapGet_mapSet_same]
          · exact List.get?_eq_get hidx
      | succ i2 =>
        simp only [List.get?_cons_succ] at hik
        obtain ⟨v, hv, hval⟩ := hin i2 k hik
        refine ⟨v, hv, fun hlast => ?_⟩
        have := hval (fun j hj => by simpa using hlast (j + 1) (by omega))
        rw [show index + (i2 + 1) = index + 1 + i2 by omega]
        exact this

/-- The model `goRegexp` keeps the contract of `FindStringSubmatch`. -/
theorem goRegexp_submatchLaw (re : GoRegexp) (s : Str) : SubmatchLaw goRegexp re s := by
  intro hm
  show (goSubexpNames re).length ≤ (goFindStringSubmatch re s).length
  have hm2 : goMatchString re s = true := hm
  unfold goMatchString at hm2
  unfold goFindStringSubmatch goSubexpNames
  cases hs : search re.expr 0 s with
  | none => simp [hs] at hm2
  | some r => simp

/-- On a path that the matcher matches, `applyPath` returns a map with an
entry for every capture-group name. -/
theorem applyPath_of_match (L : RegexpLib) (re : L.Regexp) (target : Str)
    (hlaw : SubmatchLaw L re target) (hm : L.MatchString re target = true) :
    ∃ m, applyPath L target (some re) = Except.ok m ∧
      ∀ i k, 1 ≤ i → (L.SubexpNames re).get? i = some k →
        ∃ v, mapGet m k = some v ∧
          ((∀ j, i < j → (L.SubexpNames re).get? j ≠ some k) →
            (L.FindStringSubmatch re target).get? i = some v) := by
  have hlen := hlaw hm
  simp only [applyPath, hm, if_true]
  cases hk : L.SubexpNames re with
  | nil => exact ⟨[], rfl, fun i k _ h => by simp at h⟩
  | cons k0 ks =>
    rw [hk] at hlen
    obtain ⟨m, hm2, -, hin⟩ := applyPathLoop_spec (L.FindStringSubmatch re target) ks 1 []
      (Nat.le_refl _) (by simp only [List.length_cons] at hlen; omega)
    refine ⟨m, ?_, ?_⟩
    · simpa [applyPathLoop] using hm2
    · intro i k hi hik
      cases i with
      | zero => omega
      | succ i2 =>
        simp only [List.get?_cons_succ] at hik
        obtain ⟨v, hv, hval⟩ := hin i2 k hik
        refine ⟨v, hv, fun hlast => ?_⟩
        have := hval (fun j hj => by simpa using hlast (j + 1) (by omega))
        rw [show i2 + 1 = 1 + i2 by omega]
        exact this

/-- Every name of a list has a last position. -/
theorem exists_last_index (names : List Str) (k : Str) :
    ∀ (d i : Nat), names.length - i ≤ d → names.get? i = some k →
      ∃ j, i ≤ j ∧ names.get? j = some k ∧ ∀ j2, j < j2 → names.get? j2 ≠ some k := by
  intro d
  induction d with
  | zero =>
    intro i hd hi
    have hlt : i < names.length := by
      rcases Nat.lt_or_ge i names.length with h | h
      · exact h
      · rw [List.get?_eq_none.2 h] at hi
        cases hi
    omega
  | succ d ih =>
    intro i hd hi
    by_cases hlast : ∀ j2, i < j2 → names.get? j2 ≠ some k
    · exact ⟨i, Nat.le_refl _, hi, hlast⟩
    · have hex : ∃ j2, i < j2 ∧ names.get? j2 = some k := by
        by_contra hne
        exact hlast (fun j2 hj2 heq => hne ⟨j2, hj2, heq⟩)
      obtain ⟨j2, hj2, hk2⟩ := hex
      obtain ⟨j, hj, hkj, hlastj⟩ := ih j2 (by omega) hk2
      exact ⟨j, by omega, hkj, hlastj⟩

/-- C14, as stated, fails: in the matcher of the template `/{x}a)?{x}b)`, that
is `^/(?P<x>a)?(?P<x>b)$`, two groups bear the name `x`.  On the path `/b`
the first of them captures nothing, its submatch is the empty string, but
the entry of `x` in the map of `applyPath` is `b`, the submatch of the second
group, which overwrote it. -/
theorem applyPath_duplicate_name_overwrites :
    (compileactualURL goRegexp "/{x}a)?{x}b)".toList).2 = "^/(?P<x>a)?(?P<x>b)$".toList ∧
    (compileactualURL goRegexp "/{x}a)?{x}b)".toList).1 = some duplicateNameRegexp ∧
    goRegexp.MatchString duplicateNameRegexp "/b".toList = true ∧
    goRegexp.SubexpNames duplicateNameRegexp = [[], "x".toList, "x".toList] ∧
    goRegexp.FindStringSubmatch duplicateNameRegexp "/b".toList = ["/b".toList, [], "b".toList] ∧
    applyPath goRegexp "/b".toList (some duplicateNameRegexp) =
      Except.ok [("x".toList, "b".toList)] ∧
    (goRegexp.SubexpNames duplicateNameRegexp).get? 1 = some "x".toList ∧
    (goRegexp.FindStringSubmatch duplicateNameRegexp "/b".toList).get? 1 = some [] ∧
    mapGet [("x".toList, "b".toList)] "x".toList ≠ some [] :=
  ⟨by decide, by rfl, by decide, by rfl, by decide, by rfl, by rfl, by decide, by decide⟩

/-- C14, amended: for a valid matcher whose library keeps the contract of
`FindStringSubmatch`, `applyPath` does not index out of range; it returns the
empty map when the matcher does not match the path, and otherwise a map with
an entry for every capture-group name, whose value is the submatch, as
`FindStringSubmatch` reports it, of the last group that bears the name; so
the entry of a group's name is that group's submatch whenever no later group
bears the same name. -/
theorem applyPath_spec (L : RegexpLib) (re : L.Regexp) (target : Str)
    (hlaw : SubmatchLaw L re target) :
    (L.MatchString re target = false → applyPath L target (some re) = Except.ok []) ∧
    (L.MatchString re target = true →
      ∃ m, applyPath L target (some re) = Except.ok m ∧
        ∀ i k, 1 ≤ i → (L.SubexpNames re).get? i = some k →
          ∃ v, mapGet m k = some v ∧
            (∃ j, i ≤ j ∧ (L.SubexpNames re).get? j = some k ∧
              (∀ j2, j < j2 → (L.SubexpNames re).get? j2 ≠ some k) ∧
              (L.FindStringSubmatch re target).get? j = some v) ∧
            ((∀ j, i < j → (L.SubexpNames re).get? j ≠ some k) →
              (L.FindStringSubmatch re target).get? i = some v)) := by
  constructor
  · intro hm
    simp [applyPath, hm]
  · intro hm
    obtain ⟨m, hm2, hall⟩ := applyPath_of_match L re target hlaw hm
    refine ⟨m, hm2, ?_⟩
    intro i k hi hik
    obtain ⟨v, hv, hval⟩ := hall i k hi hik
    obtain ⟨j, hij, hkj, hlastj⟩ := exists_last_index (L.SubexpNames re) k _ i (Nat.le_refl _) hik
    obtain ⟨v2, hv2, hval2⟩ := hall j k (by omega) hkj
    have hvv : v2 = v := by
      rw [hv] at hv2
      exact (Option.some.inj hv2).symm
    subst hvv
    exact ⟨v2, hv, ⟨j, hij, hkj, hlastj, hval2 hlastj⟩, hval⟩

/-- C14, amended, at concrete inputs.  The matcher of the template
`/a{x}:number?`, whose group is optional: on the path `/a7` the map is
`x = 7`; on the path `/a` the group takes no part in the match and the map
holds `x` with the empty string; on the path `/b` the map is empty.  The
matcher `^/(?P<x>a)?(?P<x>b)$` on the path `/b`: the entry of `x` is the
submatch `b` of the last group named `x`. -/
theorem applyPath_spec_witness :
    (compileactualURL goRegexp "/a{x}:number?".toList).2 = "^/a(?P<x>[0-9\\.]+)?$".toList ∧
    (compileactualURL goRegexp "/a{x}:number?".toList).1 = some optionalNumberRegexp ∧
    goRegexp.SubexpNames optionalNumberRegexp = [[], "x".toList] ∧
    goRegexp.FindStringSubmatch optionalNumberRegexp "/a".toList = ["/a".toList, []] ∧
    applyPath goRegexp "/a7".toList (some optionalNumberRegexp) =
      Except.ok [("x".toList, "7".toList)] ∧
    applyPath goRegexp "/a".toList (some optionalNumberRegexp) = Except.ok [("x".toList, [])] ∧
    applyPath goRegexp "/b".toList (some optionalNumberRegexp) = Except.ok [] ∧
    (∃ m, applyPath goRegexp "/b".toList (some duplicateNameRegexp) = Except.ok m ∧
      ∀ i k, 1 ≤ i → (goRegexp.SubexpNames duplicateNameRegexp).get? i = some k →
        ∃ v, mapGet m k = some v ∧
          (∃ j, i ≤ j ∧ (goRegexp.SubexpNames duplicateNameRegexp).get? j = some k ∧
            (∀ j2, j < j2 → (goRegexp.SubexpNames duplicateNameRegexp).get? j2 ≠ some k) ∧
            (goRegexp.FindStringSubmatch duplicateNameRegexp "/b".toList).get? j = some v) ∧
          ((∀ j, i < j → (goRegexp.SubexpNames duplicateNameRegexp).get? j ≠ some k) →
            (goRegexp.FindStringSubmatch duplicateNameRegexp "/b".toList).get? i = some v)) :=
  ⟨by decide, by rfl, by rfl, by decide, by rfl, by rfl, by rfl,
    (applyPath_spec goRegexp duplicateNameRegexp "/b".toList (fun _ => by decide)).2
      (by decide)⟩

/-! ## The first match decides -/

theorem handlersInvoked_length_le_one {H : Type} (o : Outcome H) :
    (handlersInvoked o).length ≤ 1 := by
  cases o <;> simp [handlersInvoked]

/-- C12: in a registry whose routes all have a matcher (of a library that
keeps the contract of `FindStringSubmatch`), for every scan order and every
request whose path some route matches, the first route in scan order whose
matcher matches the path decides: if its method is the request's, its handler
is called, with the parameters of `applyPath` and with the response writer
untouched; otherwise the dispatcher writes 405 with body "Method Not Allowed"
and calls no handler, whatever the later routes.  In every case at most one
handler is called. -/
theorem mainHandler_first_match {L : RegexpLib} {H : Type} (r : Relax L H)
    (scan : List (Str × RelaxHandler L H)) (w : List WriterCall) (req : HttpRequest)
    (hvalid : ∀ e ∈ r.relaxHandlerMap, e.2.path.isSome = true)
    (hlaw : ∀ e ∈ r.relaxHandlerMap, ∀ re, e.2.path = some re → SubmatchLaw L re req.Path)
    (hscan : scan.Perm r.relaxHandlerMap)
    (hsome : ∃ e ∈ r.relaxHandlerMap, routeMatches req.Path e.2 = true) :
    (∃ e, scan.find? (fun e => routeMatches req.Path e.2) = some e ∧
      (e.2.method = req.Method →
        ∃ params, applyPath L req.Path e.2.path = Except.ok params ∧
          mainHandler scan w req =
            Outcome.invoked e.2.funcHandler { params := some params, Request := req }
              { responseWriter := w } ∧
          handlersInvoked (mainHandler scan w req) = [e.2.funcHandler]) ∧
      (e.2.method ≠ req.Method →
        mainHandler scan w req =
          Outcome.sent { responseWriter :=
            w ++ [WriterCall.WriteHeader 405, WriterCall.Write "Method Not Allowed".toList] } ∧
        handlersInvoked (mainHandler scan w req) = [])) ∧
    (handlersInvoked (mainHandler scan w req)).length ≤ 1 := by
  have hvalid2 : ∀ e ∈ scan, e.2.path.isSome = true :=
    fun e he => hvalid e (hscan.mem_iff.1 he)
  refine ⟨?_, handlersInvoked_length_le_one _⟩
  obtain ⟨e0, he0, hpe0⟩ := hsome
  cases hf : scan.find? (fun e => routeMatches req.Path e.2) with
  | none =>
    have := (find?_eq_none_of_perm _ hscan).1 hf e0 he0
    rw [hpe0] at this
    cases this
  | some e =>
    have hmem : e ∈ r.relaxHandlerMap := hscan.mem_iff.1 (List.mem_of_find?_eq_some hf)
    have hpe : routeMatches req.Path e.2 = true := by simpa using List.find?_some hf
    have heq := mainHandler_eq scan w req hvalid2
    rw [hf] at heq
    refine ⟨e, rfl, ?_, ?_⟩
    · intro hm
      simp only [hm, if_true] at heq
      cases hp : e.2.path with
      | none => simp [routeMatches, hp] at hpe
      | some re =>
        have hmatch : L.MatchString re req.Path = true := by
          simpa [routeMatches, hp] using hpe
        obtain ⟨m, hm2, -⟩ := applyPath_of_match L re req.Path (hlaw e hmem re hp) hmatch
        rw [hp, hm2] at heq
        exact ⟨m, hm2, heq, by rw [heq]; rfl⟩
    · intro hm
      simp only [hm, if_false] at heq
      exact ⟨heq, by rw [heq]; rfl⟩

/-- C12, at a concrete input: the registry with the routes `("GET", "/a")` and
`("POST", "/{x}:string")`, scanned `POST` route first.  For `("GET", "/a")` the
first route that matches is the `POST` route, so 405 is written although the
`GET` route matches as well; for `("POST", "/a")` its handler 2 is called. -/
theorem mainHandler_first_match_witness :
    (∃ e ∈ overlappingRelax.relaxHandlerMap,
      routeMatches "/a".toList e.2 = true ∧ e.2.method = "GET".toList) ∧
    mainHandler overlappingRelax.relaxHandlerMap.reverse []
        { Method := "GET".toList, Path := "/a".toList, RawQuery := [] } =
      Outcome.sent { responseWriter :=
        [WriterCall.WriteHeader 405, WriterCall.Write "Method Not Allowed".toList] } ∧
    mainHandler overlappingRelax.relaxHandlerMap.reverse []
        { Method := "POST".toList, Path := "/a".toList, RawQuery := [] } =
      Outcome.invoked 2
        { params := some [("x".toList, "a".toList)],
          Request := { Method := "POST".toList, Path := "/a".toList, RawQuery := [] } }
        { responseWriter := [] } ∧
    (handlersInvoked (mainHandler overlappingRelax.relaxHandlerMap.reverse []
        { Method := "POST".toList, Path := "/a".toList, RawQuery := [] })).length ≤ 1 :=
  ⟨by decide, by decide, by decide,
    (mainHandler_first_match overlappingRelax overlappingRelax.relaxHandlerMap.reverse []
      { Method := "POST".toList, Path := "/a".toList, RawQuery := [] } (by decide)
      (fun _ _ re _ => goRegexp_submatchLaw re _) (List.reverse_perm _) (by decide)).2⟩

/-! ## Scan order -/

theorem find?_eq_head?_filter {α : Type} (p : α → Bool) (l : List α) :
    l.find? p = (l.filter p).head? := by
  induction l with
  | nil => rfl
  | cons a tl ih =>
    by_cases ha : p a = true
    · simp only [List.find?, List.filter, ha, List.head?_cons]
    · simp only [List.find?, List.filter, ha]
      exact ih

theorem find?_eq_of_perm_of_countP_le_one {α : Type} (p : α → Bool) {l1 l2 : List α}
    (h : l1.Perm l2) (hone : l2.countP p ≤ 1) : l1.find? p = l2.find? p := by
  have hf : (l1.filter p).Perm (l2.filter p) := h.filter p
  have hlen : (l2.filter p).length ≤ 1 := by
    rw [← List.countP_eq_length_filter]
    exact hone
  have heq : l1.filter p = l2.filter p := by
    cases h2 : l2.filter p with
    | nil =>
      rw [h2] at hf
      exact hf.eq_nil
    | cons a tl =>
      rw [h2] at hlen hf
      cases tl with
      | nil => exact List.perm_singleton.1 hf
      | cons b tl2 => simp at hlen
  rw [find?_eq_head?_filter, find?_eq_head?_filter, heq]

/-- C16: in a registry whose routes all have a matcher, for a request whose
path at most one registered route matches, the outcome of the dispatch is the
same for every scan order. -/
theorem mainHandler_scan_order_irrelevant {L : RegexpLib} {H : Type} (r : Relax L H)
    (scan1 scan2 : List (Str × RelaxHandler L H)) (w : List WriterCall) (req : HttpRequest)
    (hvalid : ∀ e ∈ r.relaxHandlerMap, e.2.path.isSome = true)
    (hscan1 : scan1.Perm r.relaxHandlerMap) (hscan2 : scan2.Perm r.relaxHandlerMap)
    (hone : r.relaxHandlerMap.countP (fun e => routeMatches req.Path e.2) ≤ 1) :
    mainHandler scan1 w req = mainHandler scan2 w req := by
  have hv1 : ∀ e ∈ scan1, e.2.path.isSome = true := fun e he => hvalid e (hscan1.mem_iff.1 he)
  have hv2 : ∀ e ∈ scan2, e.2.path.isSome = true := fun e he => hvalid e (hscan2.mem_iff.1 he)
  rw [mainHandler_eq scan1 w req hv1, mainHandler_eq scan2 w req hv2,
    find?_eq_of_perm_of_countP_le_one _ hscan1 hone,
    find?_eq_of_perm_of_countP_le_one _ hscan2 hone]

/-- C16, at a concrete input: the registry with the routes `("GET", "/a")`
and `("POST", "/{x}:string")` and the path `/b`, which only the second route
matches; both scan orders call handler 2 with `x = b`. -/
theorem mainHandler_scan_order_irrelevant_witness :
    overlappingRelax.relaxHandlerMap.countP (fun e => routeMatches "/b".toList e.2) = 1 ∧
    mainHandler overlappingRelax.relaxHandlerMap []
        { Method := "POST".toList, Path := "/b".toList, RawQuery := [] } =
      Outcome.invoked 2
        { params := some [("x".toList, "b".toList)],
          Request := { Method := "POST".toList, Path := "/b".toList, RawQuery := [] } }
        { responseWriter := [] } ∧
    mainHandler overlappingRelax.relaxHandlerMap []
        { Method := "POST".toList, Path := "/b".toList, RawQuery := [] } =
      mainHandler overlappingRelax.relaxHandlerMap.reverse []
        { Method := "POST".toList, Path := "/b".toList, RawQuery := [] } :=
  ⟨by decide, by decide,
    mainHandler_scan_order_irrelevant overlappingRelax overlappingRelax.relaxHandlerMap
      overlappingRelax.relaxHandlerMap.reverse []
      { Method := "POST".toList, Path := "/b".toList, RawQuery := [] } (by decide)
      (List.Perm.refl _) (List.reverse_perm _) (by decide)⟩

/-! ## The order of the substitutions -/

theorem replaceFrom_skip (tok new xs rest : Str) :
    replaceFrom tok new xs.length (xs ++ rest) = replaceFrom tok new 0 rest := by
  induction xs with
  | nil => rfl
  | cons x xs ih => simpa [replaceFrom] using ih

/-- An occurrence of the token at the start of the text is replaced. -/
theorem replaceFrom_token_append (a : Char) (tl new rest : Str) :
    replaceFrom (a :: tl) new 0 (a :: tl ++ rest) = new ++ replaceFrom (a :: tl) new 0 rest := by
  have hp : (a :: tl).isPrefixOf (a :: (tl ++ rest)) = true := by
    rw [List.isPrefixOf_iff_prefix]
    exact List.prefix_append (a :: tl) rest
  show replaceFrom (a :: tl) new 0 (a :: (tl ++ rest)) = _
  rw [replaceFrom, if_pos hp]
  have := replaceFrom_skip (a :: tl) new tl rest
  simpa using this

theorem flatMap_of_fixed (g : Char → Str) (u : Str) (h : ∀ c ∈ u, g c = [c]) :
    u.flatMap g = u := by
  induction u with
  | nil => rfl
  | cons x xs ih =>
    rw [List.flatMap_cons, h x (List.mem_cons_self _ _),
      ih (fun c hc => h c (List.mem_cons_of_mem _ hc))]
    rfl

/-- Whether a text of characters that `g` leaves alone starts a text is not
changed by `g`, when the texts that `g` puts for the other characters share
no character with it. -/
theorem isPrefixOf_flatMap (g : Char → Str) (u : Str) (hfix : ∀ c ∈ u, g c = [c])
    (hother : ∀ c, g c ≠ [c] → g c ≠ [] ∧ ∀ y ∈ g c, y ∉ u) :
    ∀ xs : Str, u.isPrefixOf (xs.flatMap g) = u.isPrefixOf xs := by
  induction u with
  | nil => intro xs; simp
  | cons u0 us ih =>
    intro xs
    have ih2 := ih (fun c hc => hfix c (List.mem_cons_of_mem _ hc))
      (fun c hc => ⟨(hother c hc).1, fun y hy hyu =>
        (hother c hc).2 y hy (List.mem_cons_of_mem _ hyu)⟩)
    cases xs with
    | nil => simp
    | cons x xs2 =>
      by_cases hx : g x = [x]
      · rw [List.flatMap_cons, hx]
        show (u0 == x && us.isPrefixOf (xs2.flatMap g)) = (u0 == x && us.isPrefixOf xs2)
        rw [ih2 xs2]
      · obtain ⟨hne, hno⟩ := hother x hx
        have hu0x : ¬ u0 = x := by
          intro e
          subst e
          exact hx (hfix u0 (List.mem_cons_self _ _))
        rw [List.flatMap_cons]
        cases hg : g x with
        | nil => exact absurd hg hne
        | cons y ys =>
          have hy : ¬ u0 = y := by
            intro e
            subst e
            exact hno u0 (by rw [hg]; exact List.mem_cons_self _ _) (List.mem_cons_self _ _)
          have e1 : (u0 == y) = false := beq_eq_false_iff_ne.2 hy
          have e2 : (u0 == x) = false := beq_eq_false_iff_ne.2 hu0x
          show (u0 == y && us.isPrefixOf (ys ++ xs2.flatMap g)) = (u0 == x && us.isPrefixOf xs2)
          rw [e1, e2]
          rfl

/-- A substitution of a token commutes with a character-wise substitution
that leaves the characters of the token alone and neither consumes nor
produces any of them. -/
theorem replaceFrom_flatMap_comm (g : Char → Str) (a : Char) (tl new : Str)
    (hfix : ∀ c ∈ a :: tl, g c = [c])
    (hother : ∀ c, g c ≠ [c] → g c ≠ [] ∧ ∀ y ∈ g c, y ∉ a :: tl)
    (hnew : new.flatMap g = new) :
    ∀ (n : Nat) (s : Str), s.length ≤ n →
      replaceFrom (a :: tl) new 0 (s.flatMap g) = (replaceFrom (a :: tl) new 0 s).flatMap g := by
  intro n
  induction n with
  | zero =>
    intro s hs
    have : s = [] := List.eq_nil_of_length_eq_zero (by omega)
    subst this
    rfl
  | succ n ih =>
    intro s hs
    cases s with
    | nil => rfl
    | cons c cs =>
      by_cases hp : (a :: tl).isPrefixOf (c :: cs) = true
      · obtain ⟨rest, hrest⟩ := List.isPrefixOf_iff_prefix.1 hp
        have hlen : rest.length ≤ n := by
          have : (c :: cs).length = (a :: tl ++ rest).length := by rw [hrest]
          simp only [List.length_cons, List.length_append] at this hs
          omega
        rw [← hrest, List.flatMap_append, flatMap_of_fixed g _ hfix, replaceFrom_token_append,
          replaceFrom_token_append, ih rest hlen, List.flatMap_append, hnew]
      · have hcs : cs.length ≤ n := by simpa using hs
        have hp2 : (a :: tl).isPrefixOf (c :: cs) = false := (Bool.not_eq_true _).mp hp
        rw [replaceFrom, if_neg hp, List.flatMap_cons, List.flatMap_cons, ← ih cs hcs]
        by_cases hc : g c = [c]
        · have hp3 : (a :: tl).isPrefixOf (c :: cs.flatMap g) = false := by
            have := isPrefixOf_flatMap g (a :: tl) hfix hother (c :: cs)
            rw [List.flatMap_cons, hc, hp2] at this
            exact this
          rw [hc]
          show replaceFrom (a :: tl) new 0 (c :: cs.flatMap g) = _
          rw [replaceFrom, hp3]
          rfl
        · have hmem : a ∉ g c := fun h => (hother c hc).2 a h (List.mem_cons_self _ _)
          exact replaceFrom_append_of_not_mem a tl new (g c) _ hmem

theorem braces_eq_flatMap (s : Str) :
    stringsReplace (stringsReplace s "\x7b".toList "(?P<".toList) "\x7d".toList ">".toList =
      s.flatMap braceText := by
  show replaceFrom ['}'] _ 0 (replaceFrom ['{'] _ 0 s) = _
  rw [replaceFrom_single, replaceFrom_single, List.flatMap_assoc]
  congr 1
  funext c
  by_cases h1 : c = '{'
  · subst h1
    decide
  · by_cases h2 : c = '}'
    · subst h2
      decide
    · simp [braceText, h1, h2]

theorem braceText_fixed (c : Char) (h1 : c ≠ '{') (h2 : c ≠ '}') : braceText c = [c] := by
  simp [braceText, h1, h2]

theorem braceText_other (u : Str) (hu1 : '(' ∉ u) (hu2 : '?' ∉ u) (hu3 : 'P' ∉ u)
    (hu4 : '<' ∉ u) (hu5 : '>' ∉ u) (c : Char) (hc : braceText c ≠ [c]) :
    braceText c ≠ [] ∧ ∀ y ∈ braceText c, y ∉ u := by
  by_cases h1 : c = '{'
  · subst h1
    refine ⟨by decide, ?_⟩
    intro y hy
    have : y = '(' ∨ y = '?' ∨ y = 'P' ∨ y = '<' := by simpa [braceText] using hy
    rcases this with e | e | e | e <;> subst e <;> assumption
  · by_cases h2 : c = '}'
    · subst h2
      refine ⟨by decide, ?_⟩
      intro y hy
      have : y = '>' := by simpa [braceText] using hy
      subst this
      exact hu5
    · exact absurd (braceText_fixed c h1 h2) hc

/-- Substituting `:number` commutes with the brace substitutions. -/
theorem number_braces_comm (s : Str) :
    replaceFrom ":number".toList "[0-9\\.]+)".toList 0 (s.flatMap braceText) =
      (replaceFrom ":number".toList "[0-9\\.]+)".toList 0 s).flatMap braceText :=
  replaceFrom_flatMap_comm braceText ':' "number".toList "[0-9\\.]+)".toList
    (by decide)
    (braceText_other (':' :: "number".toList) (by decide) (by decide) (by decide) (by decide)
      (by decide))
    (by decide) s.length s (Nat.le_refl _)

/-- Substituting `:string` commutes with the brace substitutions. -/
theorem string_braces_comm (s : Str) :
    replaceFrom ":string".toList "[0-9a-zA-Z_]+)".toList 0 (s.flatMap braceText) =
      (replaceFrom ":string".toList "[0-9a-zA-Z_]+)".toList 0 s).flatMap braceText :=
  replaceFrom_flatMap_comm braceText ':' "string".toList "[0-9a-zA-Z_]+)".toList
    (by decide)
    (braceText_other (':' :: "string".toList) (by decide) (by decide) (by decide) (by decide)
      (by decide))
    (by decide) s.length s (Nat.le_refl _)

/-- C13: for every template, the canonical form that `compileactualURL`
computes, with the braces substituted first and the type suffixes after, is
the canonical form obtained by substituting the type suffixes `:number` and
`:string` first and the braces afterwards. -/
theorem canonical_eq_canonicalSuffixFirst (L : RegexpLib) (t : Str) :
    (compileactualURL L t).2 = canonicalSuffixFirst t ∧
    canonical t = canonicalSuffixFirst t := by
  have key : substitute t = substituteSuffixFirst t := by
    rw [substitute_unfold, braces_eq_flatMap]
    unfold substituteSuffixFirst
    rw [braces_eq_flatMap]
    show replaceFrom ":string".toList _ 0 (replaceFrom ":number".toList _ 0 _) =
      (replaceFrom ":string".toList _ 0 (replaceFrom ":number".toList _ 0 t)).flatMap braceText
    rw [number_braces_comm, string_braces_comm]
  have h2 : canonical t = canonicalSuffixFirst t := by
    unfold canonical canonicalSuffixFirst
    rw [key]
  exact ⟨h2, h2⟩

/-- Both orders of substitution on the templates `/items/{id}:number` and
`{a:number}b:string{`. -/
theorem canonical_orders_example :
    canonical "/items/{id}:number".toList = "^/items/(?P<id>[0-9\\.]+)$".toList ∧
    canonicalSuffixFirst "/items/{id}:number".toList = "^/items/(?P<id>[0-9\\.]+)$".toList ∧
    canonical "{a:number}b:string\x7b".toList = "^(?P<a[0-9\\.]+)>b[0-9a-zA-Z_]+)(?P<$".toList ∧
    canonicalSuffixFirst "{a:number}b:string\x7b".toList =
      "^(?P<a[0-9\\.]+)>b[0-9a-zA-Z_]+)(?P<$".toList :=
  ⟨by decide, by decide, by decide, by decide⟩

/-! ## The canonical form of a template with one capture -/

theorem not_mem_of_not_occursIn_single (c : Char) (s : Str) (h : occursIn [c] s = false) :
    c ∉ s := by
  induction s with
  | nil => simp
  | cons x xs ih =>
    simp only [occursIn, Bool.or_eq_false_iff] at h
    have hx : ¬ c = x := by
      intro e
      subst e
      simp [List.isPrefixOf] at h
    intro hmem
    rcases List.mem_cons.1 hmem with e | e
    · exact hx e
    · exact ih h.2 e

/-- A token that is a prefix of `xs ++ B` without being one of the non-empty
`xs` reaches into `B`: the first character of `B` is one of its characters. -/
theorem head_mem_of_isPrefixOf_append (ts xs B : Str)
    (h1 : ts.isPrefixOf (xs ++ B) = true) (h2 : ts.isPrefixOf xs = false) :
    ∃ b, B.head? = some b ∧ b ∈ ts := by
  induction ts generalizing xs with
  | nil => simp at h2
  | cons u us ih =>
    cases xs with
    | nil =>
      cases B with
      | nil => simp at h1
      | cons b B2 =>
        have hb : u = b := by
          simp only [List.nil_append, List.isPrefixOf, Bool.and_eq_true, beq_iff_eq] at h1
          exact h1.1
        exact ⟨b, rfl, by simp [hb]⟩
    | cons y ys =>
      simp only [List.cons_append, List.isPrefixOf, Bool.and_eq_true, beq_iff_eq] at h1
      have h3 : us.isPrefixOf ys = false := by
        simp only [List.isPrefixOf, h1.1, beq_self_eq_true, Bool.true_and] at h2
        exact h2
      obtain ⟨b, hb, hmem⟩ := ih ys h1.2 h3
      exact ⟨b, hb, List.mem_cons_of_mem _ hmem⟩

/-- A text in which the token does not occur is left alone, when the text
after it does not start with a character that could continue the token. -/
theorem replaceFrom_append_of_not_occurs (a : Char) (tl new A B : Str)
    (hA : occursIn (a :: tl) A = false) (hB : ∀ b, B.head? = some b → b ∉ tl) :
    replaceFrom (a :: tl) new 0 (A ++ B) = A ++ replaceFrom (a :: tl) new 0 B := by
  induction A with
  | nil => rfl
  | cons x xs ih =>
    simp only [occursIn, Bool.or_eq_false_iff] at hA
    have hp : (a :: tl).isPrefixOf (x :: xs ++ B) = false := by
      cases hq : (a :: tl).isPrefixOf (x :: xs ++ B) with
      | false => rfl
      | true =>
        exfalso
        have hq1 : (a :: tl).isPrefixOf (x :: (xs ++ B)) = true := hq
        simp only [List.isPrefixOf, Bool.and_eq_true, beq_iff_eq] at hq1
        have h3 : tl.isPrefixOf xs = false := by
          have := hA.1
          simp only [List.isPrefixOf, hq1.1, beq_self_eq_true, Bool.true_and] at this
          exact this
        obtain ⟨b, hb, hmem⟩ := head_mem_of_isPrefixOf_append tl xs B hq1.2 h3
        exact hB b hb hmem
    show replaceFrom (a :: tl) new 0 (x :: (xs ++ B)) = _
    rw [replaceFrom, show (a :: tl).isPrefixOf (x :: (xs ++ B)) = false from hp]
    simp [ih hA.2]

theorem flatMap_braceText_of_no_brace (s : Str) (h1 : '{' ∉ s) (h2 : '}' ∉ s) :
    s.flatMap braceText = s :=
  flatMap_of_fixed braceText s (fun c hc =>
    braceText_fixed c (fun e => h1 (e ▸ hc)) (fun e => h2 (e ▸ hc)))

/-- The substitution of a type-suffix token `:w` in the text
`pre(?P<n>:w post`, whose parts `pre`, `n` and `post` do not contain the
token. -/
theorem replaceFrom_suffix_at_capture (w new pre n post : Str)
    (hw1 : '(' ∉ w) (hw2 : '>' ∉ w)
    (hpre : occursIn (':' :: w) pre = false) (hn : occursIn (':' :: w) n = false)
    (hpost : occursIn (':' :: w) post = false) :
    replaceFrom (':' :: w) new 0
        (pre ++ ("(?P<".toList ++ (n ++ (">".toList ++ ((':' :: w) ++ post))))) =
      pre ++ ("(?P<".toList ++ (n ++ (">".toList ++ (new ++ post)))) := by
  rw [replaceFrom_append_of_not_occurs ':' w new pre _ hpre
        (by intro b hb; simp at hb; subst hb; exact hw1),
    replaceFrom_append_of_not_mem ':' w new "(?P<".toList _ (by decide),
    replaceFrom_append_of_not_occurs ':' w new n _ hn
        (by intro b hb; simp at hb; subst hb; exact hw2),
    replaceFrom_append_of_not_mem ':' w new ">".toList _ (by decide),
    replaceFrom_token_append, replaceFrom_of_not_occurs _ _ _ hpost]

/-- The substitution of a type-suffix token `:w` leaves the text
`pre(?P<n>mid post` alone, when `pre`, `n` and `post` do not contain the
token and `mid` holds no colon. -/
theorem replaceFrom_suffix_absent (w new pre n mid post : Str)
    (hw1 : '(' ∉ w) (hw2 : '>' ∉ w) (hmid : ':' ∉ mid)
    (hpre : occursIn (':' :: w) pre = false) (hn : occursIn (':' :: w) n = false)
    (hpost : occursIn (':' :: w) post = false) :
    replaceFrom (':' :: w) new 0
        (pre ++ ("(?P<".toList ++ (n ++ ('>' :: mid ++ post)))) =
      pre ++ ("(?P<".toList ++ (n ++ ('>' :: mid ++ post))) := by
  have hmid2 : ':' ∉ '>' :: mid := by
    intro h
    rcases List.mem_cons.1 h with e | e
    · exact absurd e (by decide)
    · exact hmid e
  rw [replaceFrom_append_of_not_occurs ':' w new pre _ hpre
        (by intro b hb; simp at hb; subst hb; exact hw1),
    replaceFrom_append_of_not_mem ':' w new "(?P<".toList _ (by decide),
    replaceFrom_append_of_not_occurs ':' w new n _ hn
        (by intro b hb; simp at hb; subst hb; exact hw2),
    replaceFrom_append_of_not_mem ':' w new ('>' :: mid) _ hmid2,
    replaceFrom_of_not_occurs _ _ _ hpost]

/-- The substitution of `:number` passes over an occurrence of `:string`. -/
theorem replaceFrom_number_over_string (new post : Str) :
    replaceFrom (':' :: "number".toList) new 0 (":string".toList ++ post) =
      ":string".toList ++ replaceFrom (':' :: "number".toList) new 0 post := by
  show replaceFrom (':' :: "number".toList) new 0 (':' :: ("string".toList ++ post)) = _
  rw [replaceFrom,
    show (':' :: "number".toList).isPrefixOf (':' :: ("string".toList ++ post)) = false from rfl,
    replaceFrom_append_of_not_mem ':' "number".toList new "string".toList post (by decide)]
  rfl

/-- C15: for texts `pre`, `n` and `post` in which none of the four tokens
occurs, the canonical form of `pre{n}:number post` is
`^pre(?P<n>[0-9\.]+)post$`, the canonical form of `pre{n}:string post` is
`^pre(?P<n>[0-9a-zA-Z_]+)post$`, and the canonical form of a template without
any of the tokens is the template between `^` and `$`. -/
theorem canonical_of_capture (pre n post : Str)
    (hpre : ∀ tok ∈ lookFor, occursIn tok pre = false)
    (hn : ∀ tok ∈ lookFor, occursIn tok n = false)
    (hpost : ∀ tok ∈ lookFor, occursIn tok post = false) :
    canonical (pre ++ "\x7b".toList ++ n ++ "\x7d:number".toList ++ post) =
      "^".toList ++ pre ++ "(?P<".toList ++ n ++ ">[0-9\\.]+)".toList ++ post ++ "$".toList ∧
    canonical (pre ++ "\x7b".toList ++ n ++ "\x7d:string".toList ++ post) =
      "^".toList ++ pre ++ "(?P<".toList ++ n ++ ">[0-9a-zA-Z_]+)".toList ++ post ++ "$".toList ∧
    canonical pre = "^".toList ++ pre ++ "$".toList := by
  have mem1 : "\x7b".toList ∈ lookFor := by simp [lookFor]
  have mem2 : "\x7d".toList ∈ lookFor := by simp [lookFor]
  have mem3 : ":number".toList ∈ lookFor := by simp [lookFor]
  have mem4 : ":string".toList ∈ lookFor := by simp [lookFor]
  have p1 := not_mem_of_not_occursIn_single '{' pre (hpre _ mem1)
  have p2 := not_mem_of_not_occursIn_single '}' pre (hpre _ mem2)
  have n1 := not_mem_of_not_occursIn_single '{' n (hn _ mem1)
  have n2 := not_mem_of_not_occursIn_single '}' n (hn _ mem2)
  have q1 := not_mem_of_not_occursIn_single '{' post (hpost _ mem1)
  have q2 := not_mem_of_not_occursIn_single '}' post (hpost _ mem2)
  have hb1 : "\x7b".toList.flatMap braceText = "(?P<".toList := by decide
  have hb2 : "\x7d:number".toList.flatMap braceText = ">".toList ++ ":number".toList := by decide
  have hb3 : "\x7d:string".toList.flatMap braceText = ">".toList ++ ":string".toList := by decide
  refine ⟨?_, ?_, ?_⟩
  · unfold canonical
    rw [substitute_unfold, braces_eq_flatMap]
    simp only [List.flatMap_append, flatMap_braceText_of_no_brace pre p1 p2,
      flatMap_braceText_of_no_brace n n1 n2, flatMap_braceText_of_no_brace post q1 q2, hb1, hb2,
      List.append_assoc]
    show "^".toList ++ (replaceFrom (':' :: "string".toList) "[0-9a-zA-Z_]+)".toList 0
      (replaceFrom (':' :: "number".toList) "[0-9\\.]+)".toList 0
        (pre ++ ("(?P<".toList ++ (n ++ (">".toList ++ ((':' :: "number".toList) ++ post))))))
      ++ "$".toList) = _
    rw [replaceFrom_suffix_at_capture "number".toList _ pre n post (by decide) (by decide)
      (hpre _ mem3) (hn _ mem3) (hpost _ mem3)]
    rw [show pre ++ ("(?P<".toList ++ (n ++ (">".toList ++ ("[0-9\\.]+)".toList ++ post)))) =
        pre ++ ("(?P<".toList ++ (n ++ ('>' :: "[0-9\\.]+)".toList ++ post))) from rfl,
      replaceFrom_suffix_absent "string".toList _ pre n "[0-9\\.]+)".toList post (by decide)
        (by decide) (by decide) (hpre _ mem4) (hn _ mem4) (hpost _ mem4)]
    rw [show ">[0-9\\.]+)".toList = '>' :: "[0-9\\.]+)".toList from rfl]
    simp [List.append_assoc]
  · unfold canonical
    rw [substitute_unfold, braces_eq_flatMap]
    simp only [List.flatMap_append, flatMap_braceText_of_no_brace pre p1 p2,
      flatMap_braceText_of_no_brace n n1 n2, flatMap_braceText_of_no_brace post q1 q2, hb1, hb3,
      List.append_assoc]
    show "^".toList ++ (replaceFrom (':' :: "string".toList) "[0-9a-zA-Z_]+)".toList 0
      (replaceFrom (':' :: "number".toList) "[0-9\\.]+)".toList 0
        (pre ++ ("(?P<".toList ++ (n ++ (">".toList ++ (":string".toList ++ post))))))
      ++ "$".toList) = _
    rw [replaceFrom_append_of_not_occurs ':' "number".toList _ pre _ (hpre _ mem3)
        (by intro b hb; simp at hb; subst hb; decide),
      replaceFrom_append_of_not_mem ':' "number".toList _ "(?P<".toList _ (by decide),
      replaceFrom_append_of_not_occurs ':' "number".toList _ n _ (hn _ mem3)
        (by intro b hb; simp at hb; subst hb; decide),
      replaceFrom_append_of_not_mem ':' "number".toList _ ">".toList _ (by decide),
      replaceFrom_number_over_string,
      replaceFrom_of_not_occurs (':' :: "number".toList) _ _ (hpost _ mem3)]
    rw [show ":string".toList = ':' :: "string".toList from rfl,
      replaceFrom_suffix_at_capture "string".toList _ pre n post (by decide) (by decide)
        (hpre _ mem4) (hn _ mem4) (hpost _ mem4)]
    rw [show ">[0-9a-zA-Z_]+)".toList = ">".toList ++ "[0-9a-zA-Z_]+)".toList from rfl]
    simp [List.append_assoc]
  · unfold canonical
    rw [substitute_of_no_token pre hpre]

/-- C15, at a concrete input: the templates `/v1/{uid}:number/posts`,
`/v1/{name}:string/posts` and `/v1/posts`. -/
theorem canonical_of_capture_witness :
    canonical "/v1/{uid}:number/posts".toList = "^/v1/(?P<uid>[0-9\\.]+)/posts$".toList ∧
    canonical "/v1/{uid}:string/posts".toList = "^/v1/(?P<uid>[0-9a-zA-Z_]+)/posts$".toList ∧
    canonical "/v1/".toList = "^/v1/$".toList :=
  canonical_of_capture "/v1/".toList "uid".toList "/posts".toList (by decide) (by decide)
    (by decide)

end Relax2
